import Mathlib

/-!
Verification development for the MindMap question-bank tools.

The repository has two scripts:
* scripts/parse_questions.py — segments a raw text dump into blocks,
  parses each block into a structured Question record and derives its id;
* scripts/enrich_clinical_facts.py — loads regex patterns and appends
  clinical-entity annotations to each question's stem.

Strings are modelled as List Char.  Python string primitives
(strip, rstrip, splitlines, lower, split, int) are embedded as executable
functions below; the fixed regular expressions of the parser are embedded
as hand-compiled recognizers, and the configurable patterns of the
annotator through a small regex abstract syntax covering the subset of
syntax the configuration uses (literals, escaped literals, the digit
class, capture groups, and the one-or-more postfix), matched with Python's
case-insensitive, greedy, backtracking, leftmost non-overlapping
semantics.
-/

/-- Abbreviation turning a Lean string literal into the List Char model used
throughout. -/
def s2l (s : String) : List Char := s.data

/-- Model of Python str.isspace / the whitespace set used by str.strip and
regex white space: ASCII whitespace plus the Unicode whitespace code points. -/
def pyIsSpace (c : Char) : Bool :=
  c.toNat = 32 || c.toNat = 9 || c.toNat = 10 || c.toNat = 13 || c.toNat = 11 ||
  c.toNat = 12 || (28 ≤ c.toNat && c.toNat ≤ 31) || c.toNat = 0x85 ||
  c.toNat = 0xa0 || c.toNat = 0x1680 ||
  (0x2000 ≤ c.toNat && c.toNat ≤ 0x200a) || c.toNat = 0x2028 ||
  c.toNat = 0x2029 || c.toNat = 0x202f || c.toNat = 0x205f || c.toNat = 0x3000

/-- Line-boundary characters recognized by Python str.splitlines. -/
def isLineBreak (c : Char) : Bool :=
  c.toNat = 10 || c.toNat = 13 || c.toNat = 11 || c.toNat = 12 ||
  c.toNat = 28 || c.toNat = 29 || c.toNat = 30 || c.toNat = 0x85 ||
  c.toNat = 0x2028 || c.toNat = 0x2029

/-- Model of Python str.lower on a character, covering ASCII and the accented
Spanish letters appearing in the parser's key set; other characters are kept
unchanged. -/
def pyToLowerChar (c : Char) : Char :=
  if 65 ≤ c.toNat ∧ c.toNat ≤ 90 then Char.ofNat (c.toNat + 32)
  else if c.toNat = 193 then 'á'
  else if c.toNat = 201 then 'é'
  else if c.toNat = 205 then 'í'
  else if c.toNat = 211 then 'ó'
  else if c.toNat = 218 then 'ú'
  else if c.toNat = 220 then 'ü'
  else if c.toNat = 209 then 'ñ'
  else c

/-- Model of Python str.upper on a character (same coverage as
pyToLowerChar). -/
def pyToUpperChar (c : Char) : Char :=
  if 97 ≤ c.toNat ∧ c.toNat ≤ 122 then Char.ofNat (c.toNat - 32)
  else if c.toNat = 225 then 'Á'
  else if c.toNat = 233 then 'É'
  else if c.toNat = 237 then 'Í'
  else if c.toNat = 243 then 'Ó'
  else if c.toNat = 250 then 'Ú'
  else if c.toNat = 252 then 'Ü'
  else if c.toNat = 241 then 'Ñ'
  else c

/-- Python str.lstrip (no argument): drop leading whitespace. -/
def pyLstripW (l : List Char) : List Char := l.dropWhile pyIsSpace

/-- Python str.rstrip (no argument): drop trailing whitespace. -/
def pyRstripW (l : List Char) : List Char := (l.reverse.dropWhile pyIsSpace).reverse

/-- Python str.strip (no argument): drop whitespace at both ends. -/
def pyStrip (l : List Char) : List Char := pyRstripW (pyLstripW l)

mutual
/-- Worker for pySplitlines; cur holds the current line reversed; a
carriage return switches to the state that fuses a following newline. -/
def splitlinesAux (cur : List Char) : List Char → List (List Char)
  | [] => if cur.isEmpty then [] else [cur.reverse]
  | c :: rest =>
    if c = '\r' then cur.reverse :: splitlinesCR rest
    else if isLineBreak c then cur.reverse :: splitlinesAux [] rest
    else splitlinesAux (c :: cur) rest

/-- State right after a carriage return: a newline here belongs to the same
boundary; anything else is processed as the start of a fresh line. -/
def splitlinesCR : List Char → List (List Char)
  | [] => []
  | c :: rest =>
    if c = '\n' then splitlinesAux [] rest
    else if c = '\r' then [] :: splitlinesCR rest
    else if isLineBreak c then [] :: splitlinesAux [] rest
    else splitlinesAux [c] rest
end

/-- Model of Python str.splitlines() (no keepends): a trailing line break
produces no trailing empty line. -/
def pySplitlines (l : List Char) : List (List Char) := splitlinesAux [] l

/-- Does s start with the literal pat (character-wise equality)? -/
def startsWithLit : List Char → List Char → Bool
  | _, [] => true
  | [], _ :: _ => false
  | c :: cs, p :: ps => c = p && startsWithLit cs ps

/-- Model of s.lower().startswith(pat) for a lowercase literal pat. -/
def lowerStartsWith (s pat : List Char) : Bool :=
  startsWithLit (s.map pyToLowerChar) pat

/-- Consume the literal pat (given in lowercase) from the front of s,
comparing case-insensitively; returns the remainder on success. -/
def dropCI : List Char → List Char → Option (List Char)
  | [], s => some s
  | _ :: _, [] => none
  | p :: ps, c :: cs => if pyToLowerChar c = p then dropCI ps cs else none

mutual
/-- Model of re.sub(r"\s+", " ", text): collapse every whitespace run to a
single space (state: outside a run). -/
def collapseWS : List Char → List Char
  | [] => []
  | c :: cs =>
    if pyIsSpace c then ' ' :: collapseAfterWS cs else c :: collapseWS cs

/-- State of collapseWS inside a whitespace run: drop further whitespace. -/
def collapseAfterWS : List Char → List Char
  | [] => []
  | c :: cs =>
    if pyIsSpace c then collapseAfterWS cs else c :: collapseWS cs
end

/-- Model of normalize_spaces: collapse whitespace runs to single spaces,
then strip. -/
def normalize_spaces (l : List Char) : List Char := pyStrip (collapseWS l)

mutual
/-- Model of str.split() with no argument: split on whitespace runs, no
empty fields (state: between fields). -/
def pySplitWS : List Char → List (List Char)
  | [] => []
  | c :: cs => if pyIsSpace c then pySplitWS cs else splitWSWord [c] cs

/-- State of pySplitWS inside a field; cur holds the field reversed. -/
def splitWSWord (cur : List Char) : List Char → List (List Char)
  | [] => [cur.reverse]
  | c :: cs =>
    if pyIsSpace c then cur.reverse :: pySplitWS cs else splitWSWord (c :: cur) cs
end

/-- Lexicographic comparison of code points, as Python compares strings. -/
def lcLt : List Char → List Char → Bool
  | [], [] => false
  | [], _ :: _ => true
  | _ :: _, [] => false
  | a :: as_, b :: bs =>
    if a.val < b.val then true
    else if b.val < a.val then false
    else lcLt as_ bs

/-- Decimal value of a list of ASCII digits. -/
def natOfDigits (l : List Char) : Nat :=
  l.foldl (fun a c => a * 10 + (c.toNat - 48)) 0

/-- Digits of int(): after the first digit, single underscores may separate
digit groups (Python 3 numeric literals accepted by int). -/
def pyDigitsAux (acc : Nat) : List Char → Option Nat
  | [] => some acc
  | c :: cs =>
    if c.isDigit then pyDigitsAux (acc * 10 + (c.toNat - 48)) cs
    else if c = '_' then
      match cs with
      | d :: _ => if d.isDigit then pyDigitsAux acc cs else none
      | [] => none
    else none

/-- Nonempty digit sequence with underscore separators; none on any other
shape. -/
def pyDigitsCore : List Char → Option Nat
  | [] => none
  | c :: cs => if c.isDigit then pyDigitsAux 0 (c :: cs) else none

/-- Model of Python int(s) on a whitespace-free token: optional sign then
ASCII digits with underscore separators; none models ValueError. -/
def pyInt : List Char → Option Int
  | '+' :: rest => (pyDigitsCore rest).map Int.ofNat
  | '-' :: rest => (pyDigitsCore rest).map (fun n => -(Int.ofNat n))
  | l => (pyDigitsCore l).map Int.ofNat

/-- Insert or overwrite a key in an insertion-ordered string dictionary,
as Python dict assignment does. -/
def dictSet (m : List (List Char × List Char)) (k v : List Char) :
    List (List Char × List Char) :=
  if m.any (fun kv => kv.1 = k) then
    m.map (fun kv => if kv.1 = k then (k, v) else kv)
  else m ++ [(k, v)]

/-- Python dict.get(k) (default None). -/
def dictGet (m : List (List Char × List Char)) (k : List Char) :
    Option (List Char) :=
  (m.find? (fun kv => kv.1 = k)).map (fun kv => kv.2)

/-- Python dict.get(k, d) with a string default. -/
def dictGetD (m : List (List Char × List Char)) (k d : List Char) : List Char :=
  (dictGet m k).getD d

/-- Python `x or y` on optional strings: None and the empty string are falsy. -/
def pyOrStr (a b : Option (List Char)) : Option (List Char) :=
  match a with
  | some s => if s.isEmpty then b else some s
  | none => b

/-! ### Regex engine for the annotation pipeline

scripts/enrich_clinical_facts.py compiles each configured pattern with
re.compile(source, re.IGNORECASE) and scans stems with finditer.  The
configuration language used by the repository needs literals, escaped
literals, the digit class, capture groups and the one-or-more postfix;
the abstract syntax below covers exactly that subset, and the compiler
rejects (models re.error for) every other construct. -/

/-- Abstract syntax of the supported regular-expression subset. -/
inductive RE where
  | eps : RE
  | lit : Char → RE
  | digit : RE
  | seq : RE → RE → RE
  | plus : RE → RE
  | group : Nat → RE → RE
deriving Repr, DecidableEq

/-- Characters that are regex metacharacters; outside the supported subset
they make compilation fail. -/
def reMeta (c : Char) : Bool :=
  c = '(' || c = ')' || c = '*' || c = '+' || c = '?' || c = '[' || c = ']' ||
  c = '{' || c = '}' || c = '|' || c = '.' || c = '^' || c = '$' || c = '\\'

mutual
/-- Parse one atom (group, escape or literal); g is the next capture-group
index. -/
def parseAtom (fuel : Nat) (l : List Char) (g : Nat) :
    Option (RE × List Char × Nat) :=
  match fuel with
  | 0 => none
  | fuel + 1 =>
    match l with
    | '(' :: rest =>
      match parseSeqRE fuel rest (g + 1) with
      | some (a, ')' :: rest', g') => some (RE.group g a, rest', g')
      | _ => none
    | '\\' :: c :: rest =>
      if c = 'd' then some (RE.digit, rest, g)
      else if c.isAlphanum then none
      else some (RE.lit c, rest, g)
    | '\\' :: [] => none
    | c :: rest => if reMeta c then none else some (RE.lit c, rest, g)
    | [] => none

/-- Parse an atom followed by an optional one-or-more postfix. -/
def parseAtomPlus (fuel : Nat) (l : List Char) (g : Nat) :
    Option (RE × List Char × Nat) :=
  match fuel with
  | 0 => none
  | fuel + 1 =>
    match parseAtom fuel l g with
    | some (a, '+' :: rest, g') => some (RE.plus a, rest, g')
    | some (a, rest, g') => some (a, rest, g')
    | none => none

/-- Parse a sequence of atoms, stopping at a closing parenthesis or the end
of input. -/
def parseSeqRE (fuel : Nat) (l : List Char) (g : Nat) :
    Option (RE × List Char × Nat) :=
  match fuel with
  | 0 => none
  | fuel + 1 =>
    match l with
    | [] => some (RE.eps, [], g)
    | ')' :: _ => some (RE.eps, l, g)
    | _ =>
      match parseAtomPlus fuel l g with
      | some (a, rest, g') =>
        match parseSeqRE fuel rest g' with
        | some (b, rest', g'') => some (RE.seq a b, rest', g'')
        | none => none
      | none => none
end

/-- A compiled pattern: the syntax tree plus its number of capture groups. -/
structure CompiledRegex where
  re : RE
  ngroups : Nat
deriving Repr, DecidableEq

/-- Model of re.compile on the supported subset: none models re.error
(raised for invalid syntax such as an unbalanced parenthesis, a trailing
backslash or a dangling postfix, and for constructs outside the subset). -/
def re_compile (src : List Char) : Option CompiledRegex :=
  match parseSeqRE (2 * src.length + 4) src 0 with
  | some (r, [], g) => some ⟨r, g⟩
  | _ => none

/-- Case-insensitive character comparison, modelling re.IGNORECASE (the
script always compiles with that flag). -/
def ciEq (a b : Char) : Bool := pyToLowerChar a = pyToLowerChar b

/-- Backtracking matcher in continuation-passing style, with Python's greedy
semantics; the continuation receives the remaining input and groups.  Fuel
only guards the recursion and is chosen large enough at every call site. -/
def matchRE (fuel : Nat) (r : RE) (s : List Char) (gs : List (List Char))
    (k : List Char → List (List Char) → Option (List Char × List (List Char))) :
    Option (List Char × List (List Char)) :=
  match fuel with
  | 0 => none
  | fuel + 1 =>
    match r with
    | RE.eps => k s gs
    | RE.lit c =>
      match s with
      | d :: s' => if ciEq c d then k s' gs else none
      | [] => none
    | RE.digit =>
      match s with
      | d :: s' => if d.isDigit then k s' gs else none
      | [] => none
    | RE.seq a b => matchRE fuel a s gs (fun s' gs' => matchRE fuel b s' gs' k)
    | RE.plus a =>
      matchRE fuel a s gs (fun s' gs' =>
        if s'.length < s.length then
          match matchRE fuel (RE.plus a) s' gs' k with
          | some res => some res
          | none => k s' gs'
        else k s' gs')
    | RE.group i a =>
      matchRE fuel a s gs (fun s' gs' =>
        k s' (gs'.set i (s.take (s.length - s'.length))))

/-- Syntactic size of a regex, used to bound the matcher's fuel. -/
def reSize : RE → Nat
  | RE.eps => 1
  | RE.lit _ => 1
  | RE.digit => 1
  | RE.seq a b => reSize a + reSize b + 1
  | RE.plus a => reSize a + 1
  | RE.group _ a => reSize a + 1

/-- A match: the full matched text (group 0) and the captured groups. -/
structure PyMatch where
  group0 : List Char
  groups : List (List Char)
deriving Repr, DecidableEq

/-- Leftmost greedy match of r starting exactly at the front of s; returns
the match, or none if no match starts here. -/
def matchHere (cr : CompiledRegex) (s : List Char) : Option PyMatch :=
  match matchRE ((reSize cr.re + 2) * (s.length + 2) * 2) cr.re s
      (List.replicate cr.ngroups []) (fun s' gs' => some (s', gs')) with
  | some (rem, gs) => some ⟨s.take (s.length - rem.length), gs⟩
  | none => none

/-- Worker for finditer: scan left to right, emitting non-overlapping
matches; after an empty match the scan advances one character. -/
def finditerAux (fuel : Nat) (cr : CompiledRegex) (s : List Char) :
    List PyMatch :=
  match fuel with
  | 0 => []
  | fuel + 1 =>
    match matchHere cr s with
    | some m =>
      if m.group0.isEmpty then
        match s with
        | [] => [m]
        | _ :: cs => m :: finditerAux fuel cr cs
      else m :: finditerAux fuel cr (s.drop m.group0.length)
    | none =>
      match s with
      | [] => []
      | _ :: cs => finditerAux fuel cr cs

/-- Model of pattern.finditer(text): all non-overlapping matches in
left-to-right scan order. -/
def finditer (cr : CompiledRegex) (s : List Char) : List PyMatch :=
  finditerAux (s.length + 1) cr s

/-! ### Annotation pipeline (scripts/enrich_clinical_facts.py) -/

/-- One entry of the pattern configuration file, before compilation:
fields pattern, type, label and the optional attributes template. -/
structure RawPattern where
  pattern : List Char
  type : List Char
  label : List Char
  attributes : Option (List (List Char × List Char))
deriving Repr, DecidableEq

/-- A configuration entry after load_patterns added the compiled regex. -/
structure CompiledPattern where
  pattern : List Char
  type : List Char
  label : List Char
  attributes : Option (List (List Char × List Char))
  regex : CompiledRegex
deriving Repr, DecidableEq

/-- Forget the compiled regex, recovering the entry as loaded from disk. -/
def CompiledPattern.toRaw (p : CompiledPattern) : RawPattern :=
  ⟨p.pattern, p.type, p.label, p.attributes⟩

/-- Model of load_patterns: compile every entry's pattern field with
re.compile(..., re.IGNORECASE); a compilation failure propagates and no
list is returned (the caller sees nothing on failure). -/
def load_patterns : List RawPattern → Option (List CompiledPattern)
  | [] => some []
  | r :: rs =>
    match re_compile r.pattern with
    | none => none
    | some cre =>
      match load_patterns rs with
      | none => none
      | some rest =>
        some (⟨r.pattern, r.type, r.label, r.attributes, cre⟩ :: rest)

/-- A clinical entity record appended by the annotator: type and value from
the pattern, text_span from the match, attributes from the template. -/
structure ClinicalEntity where
  type : List Char
  value : List Char
  text_span : List Char
  attributes : List (List Char × List Char)
deriving Repr, DecidableEq

/-- A Question-shaped JSON object as the annotator sees it.  stem = none
models a missing stem key; clinical_entities distinguishes a missing key
(none), an explicit null (some none) and a list (some (some l)); every
other key is kept opaque in rest. -/
structure PyQuestion where
  stem : Option (List Char)
  clinical_entities : Option (Option (List ClinicalEntity))
  rest : List (List Char × List Char)
deriving Repr, DecidableEq

/-- The list the annotator starts from:
question.get("clinical_entities", []) or [] — a missing key and a null
both give the empty list. -/
def effEntities (q : PyQuestion) : List ClinicalEntity :=
  match q.clinical_entities with
  | some (some l) => l
  | _ => []

/-- Build one entity for a match of a pattern, as the loop body of
enrich_question does: attributes = dict(pattern.get("attributes") or then
the timeline rule overwrites attributes with the first captured group. -/
def mkEntity (p : CompiledPattern) (m : PyMatch) : ClinicalEntity :=
  let attrs := p.attributes.getD []
  let attrs :=
    if p.type = s2l "timeline" ∧ ¬ m.groups.isEmpty then
      dictSet attrs (s2l "value") (m.groups.headD [])
    else attrs
  ⟨p.type, p.label, m.group0, attrs⟩

/-- Model of enrich_question: scan the stem (empty if the key is missing)
with every pattern in declaration order, appending one entity per match to
the question's entity list, and store the result back in the question. -/
def enrich_question (q : PyQuestion) (patterns : List CompiledPattern) :
    PyQuestion :=
  let text := q.stem.getD []
  let entities := patterns.foldl
    (fun acc p => (finditer p.regex text).foldl
      (fun acc2 m => acc2 ++ [mkEntity p m]) acc)
    (effEntities q)
  { q with clinical_entities := some (some entities) }

/-- Model of the list comprehension in process: enrich every question,
preserving the array order. -/
def process_questions (qs : List PyQuestion) (patterns : List CompiledPattern) :
    List PyQuestion :=
  qs.map (fun q => enrich_question q patterns)

/-- The entities contributed by one annotation pass over a given stem, in
pattern order, then match order. -/
def entitiesFor (patterns : List CompiledPattern) (text : List Char) :
    List ClinicalEntity :=
  patterns.flatMap (fun p => (finditer p.regex text).map (mkEntity p))

/-! ### Parsing pipeline (scripts/parse_questions.py)

The three fixed regular expressions HEADER_RE, META_RE and OPTION_RE plus
the answer search are embedded as hand-compiled recognizers.  They are
applied exactly where the script applies them: META_RE, OPTION_RE and the
option-loop test on stripped lines, the answer search on right-stripped
lines, so the backtracking corner of a trailing-whitespace-only value
group cannot arise. -/

/-- Join string pieces with a separator, as Python sep.join(pieces). -/
def joinWith (sep : List Char) : List (List Char) → List Char
  | [] => []
  | [x] => x
  | x :: xs => x ++ sep ++ joinWith sep xs

/-- Prefix match of HEADER_RE (with re.IGNORECASE):
the marker Pregunta, whitespace, digits (the number group), optional
whitespace, an opening parenthesis, a nonempty run without a closing
parenthesis (the label group), and the closing parenthesis and colon.
Returns the digit run and the label. -/
def headerMatch (l : List Char) : Option (List Char × List Char) :=
  match dropCI (s2l "pregunta") l with
  | none => none
  | some r1 =>
    let w := r1.takeWhile pyIsSpace
    if w.isEmpty then none
    else
      let r2 := r1.drop w.length
      let ds := r2.takeWhile Char.isDigit
      if ds.isEmpty then none
      else
        match (r2.drop ds.length).dropWhile pyIsSpace with
        | '(' :: r4 =>
          let label := r4.takeWhile (fun c => ¬ c = ')')
          if label.isEmpty then none
          else
            match r4.drop label.length with
            | ')' :: ':' :: _ => some (ds, label)
            | _ => none
        | _ => none

/-- Model of parse_header: number from the digit group; the stripped
label's last whitespace token, when int() accepts it, becomes the year and
is removed from the label to leave the exam name (falling back to the
token itself when nothing remains); none models the ValueError raised on a
line HEADER_RE rejects. -/
def parse_header (line : List Char) : Option (Nat × List Char × Option Int) :=
  match headerMatch line with
  | none => none
  | some (ds, label0) =>
    let number := natOfDigits ds
    let label := pyStrip label0
    let tokens := pySplitWS label
    match tokens.getLast? with
    | none => some (number, pyStrip label, none)
    | some lastTok =>
      match pyInt lastTok with
      | some y =>
        let joined := joinWith [' '] tokens.dropLast
        let exam := if joined.isEmpty then lastTok else joined
        some (number, pyStrip exam, some y)
      | none => some (number, pyStrip label, none)

/-- The alternatives of META_RE's key group, lowercase, in the regex's
alternation order. -/
def metaKeys : List (List Char) :=
  [s2l "área", s2l "area", s2l "tema", s2l "subtema",
   s2l "subtema específico", s2l "subtema especifico"]

/-- Try the key alternatives in order: a full match needs the key, a colon
and a nonempty value after optional whitespace; on failure the next
alternative is tried, as regex backtracking does. -/
def metaTry : List (List Char) → List Char → Option (List Char × List Char)
  | [], _ => none
  | k :: ks, line =>
    match dropCI k line with
    | some (':' :: rest) =>
      let v := rest.dropWhile pyIsSpace
      if v.isEmpty then metaTry ks line else some (k, v)
    | _ => metaTry ks line

/-- Model of META_RE.match on a stripped line; the returned key is the
lowercase form the script stores (match.group("key").lower()). -/
def metaMatch (line : List Char) : Option (List Char × List Char) :=
  metaTry metaKeys line

/-- Model of OPTION_RE.match on a stripped line: an ASCII uppercase letter,
a closing parenthesis, optional whitespace, then a nonempty text. -/
def optMatch : List Char → Option (Char × List Char)
  | c :: ')' :: rest =>
    if 'A' ≤ c ∧ c ≤ 'Z' then
      let v := rest.dropWhile pyIsSpace
      if v.isEmpty then none else some (c, v)
    else none
  | _ => none

/-- Prefix match of the answer pattern (with re.IGNORECASE): the literal
marker and colon, whitespace, a letter ([A-Z] under IGNORECASE also
accepts lowercase), a closing parenthesis, whitespace, then a nonempty
text reaching the end of the right-stripped line. -/
def ansHere (l : List Char) : Option (Char × List Char) :=
  match dropCI (s2l "respuesta correcta:") l with
  | none => none
  | some rest =>
    match rest.dropWhile pyIsSpace with
    | c :: ')' :: rest3 =>
      if ('A' ≤ c ∧ c ≤ 'Z') ∨ ('a' ≤ c ∧ c ≤ 'z') then
        let v := rest3.dropWhile pyIsSpace
        if v.isEmpty then none else some (c, v)
      else none
    | _ => none

/-- Model of re.search with the answer pattern: try every start position
left to right. -/
def ansSearch : List Char → Option (Char × List Char)
  | [] => none
  | c :: cs =>
    match ansHere (c :: cs) with
    | some r => some r
    | none => ansSearch cs

/-- AnswerOption dataclass: the option letter, trimmed text and the unset
linked_entity. -/
structure AnswerOption where
  id : Char
  text : List Char
  linked_entity : Option (List Char)
deriving Repr, DecidableEq

/-- Question dataclass of parse_questions.py. -/
structure Question where
  id : List Char
  source_exam : List Char
  year : Option Int
  number : Nat
  domain : Option (List Char)
  topic : Option (List Char)
  subtopic : Option (List Char)
  focus : Option (List Char)
  stem : List Char
  options : List AnswerOption
  answer_key : List Char
  answer_text : List Char
  clinical_entities : List ClinicalEntity
  reasoning_tags : List (List Char)
  metadata : List (List Char × List Char)
deriving Repr, DecidableEq

/-- Decimal digits of an integer, as Python str(int). -/
def intToChars (y : Int) : List Char :=
  if y < 0 then '-' :: Nat.toDigits 10 y.natAbs else Nat.toDigits 10 y.toNat

/-- The year piece of the id f-string: `year or 'XXXX'` — the placeholder
is used when year is None and also when it is 0 (0 is falsy). -/
def yearStr : Option Int → List Char
  | some y => if y = 0 then s2l "XXXX" else intToChars y
  | none => s2l "XXXX"

/-- The number piece of the id f-string: zero-padded to width two. -/
def pad2 (n : Nat) : List Char :=
  if n < 10 then '0' :: Nat.toDigits 10 n else Nat.toDigits 10 n

/-- The id f-string of parse_chunk:
(exam or 'EXAM').replace(' ', '').upper() - (year or 'XXXX') - number 02d. -/
def mkId (exam : List Char) (year : Option Int) (number : Nat) : List Char :=
  ((if exam.isEmpty then s2l "EXAM" else exam).filter (fun c => ¬ c = ' ')).map
      pyToUpperChar
    ++ ('-' :: yearStr year) ++ ('-' :: pad2 number)

/-- The reasoning_tags expression: the set of the two normalized subtopic
values minus the empty string, sorted ascending. -/
def sortedTagPair (a b : List Char) : List (List Char) :=
  let s := if a = b then [a] else [a, b]
  let s := s.filter (fun x => ¬ x.isEmpty)
  match s with
  | [x, y] => if lcLt y x then [y, x] else [x, y]
  | other => other

/-- The line-comprehension filter of parse_chunk: keep a line if it strips
nonempty or starts with the literal marker (the second disjunct is written
in the source; it is subsumed by the first). -/
def keepLine (ln : List Char) : Bool :=
  ¬ (pyStrip ln).isEmpty || startsWithLit ln (s2l "Pregunta")

/-- The preprocessed line list of parse_chunk: splitlines, filter, rstrip
each kept line. -/
def processedLines (chunk : List Char) : List (List Char) :=
  ((pySplitlines chunk).filter keepLine).map pyRstripW

/-- The header-line test: line.lower().startswith("pregunta"). -/
def isHeaderPred (ln : List Char) : Bool :=
  lowerStartsWith ln (s2l "pregunta")

/-- META_RE applied to a stripped line, as the metadata loop does. -/
def metaLine (l : List Char) : Option (List Char × List Char) :=
  metaMatch (pyStrip l)

/-- The lines the metadata loop consumes from the lines after the header. -/
def metaRegionOf (rest : List (List Char)) : List (List Char) :=
  rest.takeWhile (fun l => (metaLine l).isSome)

/-- The metadata dictionary collected by the loop: each consumed line's
lowercase key mapped to its stripped value, later lines overwriting. -/
def metaOf (rest : List (List Char)) : List (List Char × List Char) :=
  (metaRegionOf rest).foldl
    (fun m l =>
      match metaLine l with
      | some kv => dictSet m kv.1 (pyStrip kv.2)
      | none => m) []

/-- The straight-line remainder of parse_chunk after the header parsed:
metadata, blank skip, stem, options, answer, tags, id. -/
def buildQuestion (lines : List (List Char)) (header_line : List Char)
    (number : Nat) (exam : List Char) (year : Option Int) : Question :=
  let hIdx := lines.findIdx (fun l => l = header_line)
  let rest0 := lines.drop (hIdx + 1)
  let meta := metaOf rest0
  let rest1 := rest0.drop (metaRegionOf rest0).length
  let rest2 := rest1.dropWhile (fun l => (pyStrip l).isEmpty)
  let stemRegion := rest2.takeWhile (fun l => (optMatch (pyStrip l)).isNone)
  let stem := pyStrip (joinWith ['\n'] (stemRegion.map pyStrip))
  let rest3 := rest2.drop stemRegion.length
  let optRegion := rest3.takeWhile
    (fun l => ¬ lowerStartsWith (pyStrip l) (s2l "respuesta correcta"))
  let options := optRegion.filterMap
    (fun l => (optMatch (pyStrip l)).map (fun p => ⟨p.1, pyStrip p.2, none⟩))
  let ansLine := lines.find?
    (fun ln => lowerStartsWith ln (s2l "respuesta correcta"))
  let ans := ansLine.bind ansSearch
  let answer_key := match ans with | some p => [pyToUpperChar p.1] | none => []
  let answer_text := match ans with | some p => pyStrip p.2 | none => []
  let tags := sortedTagPair
    (normalize_spaces (dictGetD meta (s2l "subtema") []))
    (normalize_spaces (dictGetD meta (s2l "subtema específico")
      (dictGetD meta (s2l "subtema especifico") [])))
  { id := mkId exam year number
    source_exam := exam
    year := year
    number := number
    domain := pyOrStr (dictGet meta (s2l "área")) (dictGet meta (s2l "area"))
    topic := dictGet meta (s2l "tema")
    subtopic := dictGet meta (s2l "subtema")
    focus := pyOrStr (dictGet meta (s2l "subtema específico"))
      (dictGet meta (s2l "subtema especifico"))
    stem := stem
    options := options
    answer_key := answer_key
    answer_text := answer_text
    clinical_entities := []
    reasoning_tags := tags
    metadata := [(s2l "raw_header", header_line)] }

/-- Model of parse_chunk: none models the two raise sites — no header line
found, or parse_header rejecting the header line. -/
def parse_chunk (chunk : List Char) : Option Question :=
  match (processedLines chunk).find? isHeaderPred with
  | none => none
  | some header_line =>
    (parse_header header_line).map
      (fun t => buildQuestion (processedLines chunk) header_line t.1 t.2.1 t.2.2)

/-! ### Segmenter (parse_file, line 142)

re.split(r"\n+─{10,}\n+", text): a delimiter occurrence is one or more
newlines, a run of at least ten box-drawing horizontals U+2500, and one or
more newlines; the character classes of the three pieces are disjoint, so
the greedy backtracking match is exactly maximal-run matching. -/

/-- Does a delimiter occurrence start exactly at the front of l?  Returns
the remainder after the (greedy) occurrence. -/
def matchDelim (l : List Char) : Option (List Char) :=
  let a := (l.takeWhile (fun c => c = '\n')).length
  if a = 0 then none
  else
    let l1 := l.drop a
    let b := (l1.takeWhile (fun c => c = '─')).length
    if b < 10 then none
    else
      let l2 := l1.drop b
      let c := (l2.takeWhile (fun c => c = '\n')).length
      if c = 0 then none else some (l2.drop c)

/-- Scan for delimiter occurrences left to right, splitting at each; acc
holds the current piece reversed.  One unit of fuel is spent per scanned
position, so fuel = length of the input always suffices. -/
def splitDelimAux (fuel : Nat) (acc : List Char) (l : List Char) :
    List (List Char) :=
  match fuel, l with
  | _, [] => [acc.reverse]
  | 0, rest => [acc.reverse ++ rest]
  | fuel + 1, c :: cs =>
    match matchDelim (c :: cs) with
    | some rest => acc.reverse :: splitDelimAux fuel [] rest
    | none => splitDelimAux fuel (c :: acc) cs

/-- Model of re.split(r"\n+─{10,}\n+", text). -/
def pySplitHR (text : List Char) : List (List Char) :=
  splitDelimAux text.length [] text

/-- Line 142 of parse_questions.py: the stripped nonempty segments. -/
def segmentBlocks (text : List Char) : List (List Char) :=
  ((pySplitHR text).map pyStrip).filter (fun b => ¬ b.isEmpty)

/-- Model of parse_file on the file's text: parse every segment; a failing
segment aborts the whole batch. -/
def parse_file (text : List Char) : Option (List Question) :=
  (segmentBlocks text).mapM parse_chunk

/-- A delimiter string as a document author writes it between blocks: a
newline, k horizontals, a newline. -/
def delimSep (k : Nat) : List Char :=
  '\n' :: (List.replicate k '─' ++ ['\n'])

/-- Join blocks with the delimiter. -/
def joinD (k : Nat) : List (List Char) → List Char
  | [] => []
  | [b] => b
  | b :: bs => b ++ delimSep k ++ joinD k bs

/-- What joinD appends after the first block. -/
def joinTail (k : Nat) : List (List Char) → List Char
  | [] => []
  | bs@(_ :: _) => delimSep k ++ joinD k bs

/-! ### Projections and fixtures used by the claim statements -/

/-- Option letters of a parse result (empty when parsing failed). -/
def optIdsOf : Option Question → List Char
  | some q => q.options.map (fun o => o.id)
  | none => []

/-- The letters of every option-shaped line anywhere in a chunk, in
document order. -/
def allOptionLetters (chunk : List Char) : List Char :=
  (processedLines chunk).filterMap (fun l => (optMatch (pyStrip l)).map (fun p => p.1))

/-- The four metadata-derived classification fields of a parse result. -/
def classificationOf (o : Option Question) :
    Option (Option (List Char) × Option (List Char) × Option (List Char) ×
      Option (List Char)) :=
  o.map (fun q => (q.domain, q.topic, q.subtopic, q.focus))

/-- The id of a parse result. -/
def idOf (o : Option Question) : Option (List Char) := o.map (fun q => q.id)

/-- The (source_exam, year, number) triple of a parse result. -/
def tripleOf (o : Option Question) :
    Option (List Char × Option Int × Nat) :=
  o.map (fun q => (q.source_exam, q.year, q.number))

/-- No line-boundary character occurs in l. -/
def noLB (l : List Char) : Bool := l.all (fun c => !isLineBreak c)

/-- A block a document author may join with delimiters: it does not contain
the delimiter character and does not strip to nothing. -/
def goodBlock (b : List Char) : Prop :=
  (∀ c ∈ b, c ≠ '─') ∧ pyStrip b ≠ []

instance (b : List Char) : Decidable (goodBlock b) := by
  unfold goodBlock; infer_instance

/-- The two patterns of the annotation-ordering example. -/
def examplePatterns : List RawPattern :=
  [⟨s2l "fiebre", s2l "symptom", s2l "fever", none⟩,
   ⟨s2l "(\\d+) días", s2l "timeline", s2l "duration", none⟩]

/-- The question of the annotation-ordering example. -/
def exampleQuestion : PyQuestion :=
  ⟨some (s2l "fiebre de 3 días"), some (some []), []⟩

/-- The metadata-derived classification of a built question depends only
on the collected dictionary. -/
def classifyMeta (m : List (List Char × List Char)) :
    Option (List Char) × Option (List Char) × Option (List Char) ×
      Option (List Char) :=
  (pyOrStr (dictGet m (s2l "área")) (dictGet m (s2l "area")),
   dictGet m (s2l "tema"),
   dictGet m (s2l "subtema"),
   pyOrStr (dictGet m (s2l "subtema específico"))
     (dictGet m (s2l "subtema especifico")))

/-- The slice of the line list that the option loop of parse_chunk scans. -/
def optionRegionOf (lines : List (List Char)) (hl : List Char) :
    List (List Char) :=
  let rest0 := lines.drop (lines.findIdx (fun l => l = hl) + 1)
  let rest1 := rest0.drop (metaRegionOf rest0).length
  let rest2 := rest1.dropWhile (fun l => (pyStrip l).isEmpty)
  let rest3 := rest2.drop
    (rest2.takeWhile (fun l => (optMatch (pyStrip l)).isNone)).length
  rest3.takeWhile
    (fun l => ¬ lowerStartsWith (pyStrip l) (s2l "respuesta correcta"))

/-- Drop the leading newlines of a block. -/
def dropNl (l : List Char) : List Char := l.dropWhile (fun c => c = '\n')

/-- The number of leading newlines of a block. -/
def leadNl (l : List Char) : Nat := (l.takeWhile (fun c => c = '\n')).length

/-- Drop the trailing newlines of a block. -/
def rstripNl (l : List Char) : List Char :=
  (l.reverse.dropWhile (fun c => c = '\n')).reverse

/-- The number of trailing newlines of a block. -/
def trailNl (l : List Char) : Nat :=
  (l.reverse.takeWhile (fun c => c = '\n')).length

/-- A fixture pattern list for claim C7: the compiled fever pattern. -/
def c7Patterns : List CompiledPattern :=
  (load_patterns [⟨s2l "fiebre", s2l "symptom", s2l "fever", none⟩]).getD []

/-- A fixture question for claim C7 with no prior entities. -/
def c7Fresh : PyQuestion := ⟨some (s2l "fiebre"), some (some []), []⟩

/-- A fixture question for claim C7 with one pre-existing entity. -/
def c7Seeded : PyQuestion :=
  ⟨some (s2l "fiebre"), some (some [⟨s2l "x", s2l "x", s2l "x", []⟩]), []⟩

/-! ### Helper lemmas -/

/-- Folding push-appends equals appending the map. -/
theorem foldl_push {α β : Type} (g : α → β) :
    ∀ (l : List α) (init : List β),
      l.foldl (fun acc x => acc ++ [g x]) init = init ++ l.map g := by
  intro l
  induction l with
  | nil => intro init; simp
  | cons x xs ih => intro init; simp [List.foldl_cons, ih]

/-- The annotation loop of enrich_question appends exactly entitiesFor. -/
theorem enrichFold (ps : List CompiledPattern) (text : List Char) :
    ∀ init : List ClinicalEntity,
      ps.foldl
        (fun acc p => (finditer p.regex text).foldl
          (fun acc2 m => acc2 ++ [mkEntity p m]) acc) init
        = init ++ entitiesFor ps text := by
  induction ps with
  | nil => intro init; simp [entitiesFor]
  | cons p ps ih =>
    intro init
    rw [List.foldl_cons, ih, foldl_push]
    simp [entitiesFor, List.flatMap_cons, List.append_assoc]

/-- Characterization of one annotation pass. -/
theorem enrich_question_entities (q : PyQuestion) (ps : List CompiledPattern) :
    (enrich_question q ps).clinical_entities
      = some (some (effEntities q ++ entitiesFor ps (q.stem.getD []))) := by
  simp [enrich_question, enrichFold]

/-! ### Claim C6 -/

/-- C6: enrich_question appends one entity per match of each pattern in
declaration order and, within a pattern, in left-to-right non-overlapping
match order, with the timeline rule overwriting the value attribute with
the first captured group; on the fever/duration example over the stem
"fiebre de 3 días" the result is exactly the symptom entity for "fiebre"
followed by the timeline entity with value "3". -/
theorem claim_C6 :
    (∀ (q : PyQuestion) (ps : List CompiledPattern),
        (enrich_question q ps).clinical_entities
          = some (some (effEntities q ++ entitiesFor ps (q.stem.getD []))))
    ∧ (load_patterns examplePatterns).map
        (fun ps => (enrich_question exampleQuestion ps).clinical_entities)
      = some (some (some
          [⟨s2l "symptom", s2l "fever", s2l "fiebre", []⟩,
           ⟨s2l "timeline", s2l "duration", s2l "3 días",
             [(s2l "value", s2l "3")]⟩])) := by
  constructor
  · intro q ps
    exact enrich_question_entities q ps
  · decide

/-! ### Claim C7 -/

/-- C7 (amended): for a question whose effective entity list starts empty,
annotating twice with the same patterns yields exactly twice the entities
of a single pass. -/
theorem claim_C7 (q : PyQuestion) (ps : List CompiledPattern)
    (h : effEntities q = []) :
    (effEntities (enrich_question (enrich_question q ps) ps)).length
      = 2 * (effEntities (enrich_question q ps)).length := by
  have h1 : effEntities (enrich_question q ps)
      = effEntities q ++ entitiesFor ps (q.stem.getD []) := by
    simp [effEntities, enrich_question_entities q ps]
  have hstem : (enrich_question q ps).stem = q.stem := rfl
  have h2 : effEntities (enrich_question (enrich_question q ps) ps)
      = effEntities (enrich_question q ps)
        ++ entitiesFor ps (q.stem.getD []) := by
    simp [effEntities, enrich_question_entities (enrich_question q ps) ps, hstem]
  rw [h2, h1, h]
  simp [Nat.two_mul]

/-- C7 witness: the amended claim applied to the fresh fixture. -/
theorem claim_C7_witness :
    effEntities c7Fresh = []
    ∧ (effEntities (enrich_question (enrich_question c7Fresh c7Patterns)
          c7Patterns)).length
        = 2 * (effEntities (enrich_question c7Fresh c7Patterns)).length :=
  ⟨rfl, claim_C7 c7Fresh c7Patterns rfl⟩

/-- C7 counterexample: with one pre-existing entity a single pass gives two
entities and a second pass gives three, not four — the doubling statement
fails for questions whose entity list is not initially empty. -/
theorem claim_C7_cex :
    (effEntities (enrich_question c7Seeded c7Patterns)).length = 2
    ∧ (effEntities (enrich_question (enrich_question c7Seeded c7Patterns)
        c7Patterns)).length = 3
    ∧ ¬ ((3 : Nat) = 2 * 2) := by
  refine ⟨by decide, by decide, by decide⟩

/-! ### Claim C8 -/

/-- C8: enrich_question changes no field of the question other than
clinical_entities (in particular the stem and every other key are kept),
and batch processing maps each input position to the enrichment of the
question at that position, preserving length and order. -/
theorem claim_C8 :
    ∀ ps : List CompiledPattern,
      (∀ q : PyQuestion,
        (enrich_question q ps).stem = q.stem
        ∧ (enrich_question q ps).rest = q.rest)
      ∧ (∀ qs : List PyQuestion,
          (process_questions qs ps).length = qs.length
          ∧ ∀ i : Nat,
              (process_questions qs ps)[i]?
                = (qs[i]?).map (fun q => enrich_question q ps)) := by
  intro ps
  refine ⟨fun q => ⟨rfl, rfl⟩, fun qs => ⟨by simp [process_questions], ?_⟩⟩
  intro i
  simp [process_questions]

/-! ### Claim C9 -/

/-- C9: load_patterns succeeds exactly when every entry's pattern source
compiles; on success it returns the entries in declaration order with all
fields preserved (and the compiled matcher attached, matching
case-insensitively per re.IGNORECASE); on failure nothing is returned, so
the load is atomic. -/
theorem claim_C9 :
    ∀ data : List RawPattern,
      (load_patterns data).map (fun l => l.map CompiledPattern.toRaw)
          = (if ∀ r ∈ data, (re_compile r.pattern).isSome then some data
            else none)
      ∧ ((load_patterns data).isSome
          ↔ ∀ r ∈ data, (re_compile r.pattern).isSome) := by
  intro data
  have key : (load_patterns data).map (fun l => l.map CompiledPattern.toRaw)
      = (if ∀ r ∈ data, (re_compile r.pattern).isSome then some data
        else none) := by
    induction data with
    | nil => simp [load_patterns]
    | cons r rs ih =>
      rcases h3 : re_compile r.pattern with _ | cre
      · have hcond : ¬ ∀ x ∈ r :: rs, (re_compile x.pattern).isSome := by
          intro h
          have := h r (List.mem_cons_self r rs)
          rw [h3] at this
          simp at this
        simp [load_patterns, h3, hcond]
      · rcases h2 : load_patterns rs with _ | rest
        · rw [h2] at ih
          have hrsf : ¬ ∀ x ∈ rs, (re_compile x.pattern).isSome := by
            intro hrs
            rw [if_pos hrs] at ih
            simp at ih
          simp [load_patterns, h3, h2, hrsf]
        · rw [h2] at ih
          have hcond_rs : ∀ x ∈ rs, (re_compile x.pattern).isSome := by
            by_contra hn
            rw [if_neg hn] at ih
            simp at ih
          rw [if_pos hcond_rs] at ih
          rw [Option.map_some'] at ih
          have hmap : rest.map CompiledPattern.toRaw = rs := Option.some.inj ih
          have hcond : ∀ x ∈ r :: rs, (re_compile x.pattern).isSome := by
            intro x hx
            rcases List.mem_cons.mp hx with hx' | hx'
            · rw [hx', h3]; rfl
            · exact hcond_rs x hx'
          simp only [load_patterns, h3, h2]
          rw [if_pos hcond]
          simp [CompiledPattern.toRaw, hmap]
  refine ⟨key, ?_⟩
  constructor
  · intro hs
    rcases hl : load_patterns data with _ | out
    · rw [hl] at hs; simp at hs
    · by_contra hna
      rw [hl, if_neg hna] at key
      simp at key
  · intro hall
    rw [if_pos hall] at key
    rcases hl : load_patterns data with _ | out
    · rw [hl] at key; simp at key
    · simp [hl]

/-! ### Claim C10 -/

/-- C10: the annotator is total on degenerate question shapes — a missing
stem key is annotated against the empty string, a missing or null
clinical_entities field is treated as the empty list, and after
enrichment clinical_entities is always a list. -/
theorem claim_C10 :
    ∀ (ps : List CompiledPattern) (st : Option (List Char))
      (ce : Option (Option (List ClinicalEntity)))
      (rest : List (List Char × List Char)),
      ((enrich_question ⟨none, ce, rest⟩ ps).clinical_entities
        = (enrich_question ⟨some [], ce, rest⟩ ps).clinical_entities)
      ∧ (enrich_question ⟨st, none, rest⟩ ps
          = enrich_question ⟨st, some (some []), rest⟩ ps)
      ∧ (enrich_question ⟨st, some none, rest⟩ ps
          = enrich_question ⟨st, some (some []), rest⟩ ps)
      ∧ (∃ l, (enrich_question ⟨st, ce, rest⟩ ps).clinical_entities
          = some (some l)) := by
  intro ps st ce rest
  exact ⟨rfl, rfl, rfl, ⟨_, rfl⟩⟩

/-! ### Character and strip lemmas -/

/-- Lowercasing does not change a whitespace character. -/
theorem space_toLower (c : Char) (h : pyIsSpace c = true) :
    pyToLowerChar c = c := by
  simp only [pyIsSpace, Bool.or_eq_true, Bool.and_eq_true,
    decide_eq_true_eq] at h
  unfold pyToLowerChar
  split_ifs <;> first | rfl | omega

/-- A character whose lowercase form is not whitespace is not whitespace. -/
theorem notSpace_of_lower_eq (c t : Char) (ht : pyIsSpace t = false)
    (h : pyToLowerChar c = t) : pyIsSpace c = false := by
  by_contra hc
  have hc' : pyIsSpace c = true := by
    cases hx : pyIsSpace c
    · exact absurd hx hc
    · rfl
  rw [space_toLower c hc'] at h
  rw [h] at hc'
  rw [ht] at hc'
  exact Bool.false_ne_true hc'

/-- Right strip decomposition: a string is its right strip followed by its
trailing whitespace. -/
theorem pyRstripW_decomp (l : List Char) :
    l = pyRstripW l ++ (l.reverse.takeWhile pyIsSpace).reverse := by
  unfold pyRstripW
  rw [← List.reverse_append, List.takeWhile_append_dropWhile, List.reverse_reverse]

/-- Every character of the part removed by the right strip is whitespace. -/
theorem pyRstripW_removed_space (l : List Char) :
    ∀ c ∈ (l.reverse.takeWhile pyIsSpace).reverse, pyIsSpace c = true := by
  intro c hc
  rw [List.mem_reverse] at hc
  exact List.mem_takeWhile_imp hc

/-- The right strip is empty exactly when the string is all whitespace. -/
theorem pyRstripW_nil_iff (l : List Char) :
    pyRstripW l = [] ↔ ∀ c ∈ l, pyIsSpace c = true := by
  unfold pyRstripW
  rw [List.reverse_eq_nil_iff, List.dropWhile_eq_nil_iff]
  constructor
  · intro h c hc
    exact h c (List.mem_reverse.mpr hc)
  · intro h c hc
    exact h c (List.mem_reverse.mp hc)

/-- The strip is empty exactly when the string is all whitespace. -/
theorem pyStrip_nil_iff (l : List Char) :
    pyStrip l = [] ↔ ∀ c ∈ l, pyIsSpace c = true := by
  unfold pyStrip pyLstripW
  rw [pyRstripW_nil_iff]
  constructor
  · intro h c hc
    rcases List.mem_append.mp
        ((List.takeWhile_append_dropWhile pyIsSpace l) ▸ hc) with h1 | h1
    · exact List.mem_takeWhile_imp h1
    · exact h c h1
  · intro h c hc
    exact h c ((List.dropWhile_sublist pyIsSpace).subset hc)

/-- Appending onto a string whose right strip is nonempty right-strips in
the second component only. -/
theorem pyRstripW_append (a b : List Char) (hb : pyRstripW b ≠ []) :
    pyRstripW (a ++ b) = a ++ pyRstripW b := by
  have hb' : ¬ (b.reverse.dropWhile pyIsSpace).isEmpty = true := by
    intro h
    apply hb
    unfold pyRstripW
    rw [List.isEmpty_iff] at h
    rw [h]
    rfl
  unfold pyRstripW
  rw [List.reverse_append, List.dropWhile_append, if_neg hb', List.reverse_append,
    List.reverse_reverse]

/-- Appending onto a nonempty all-non-whitespace string right-strips in the
second component only. -/
theorem pyRstripW_append_solid (a b : List Char) (ha : a ≠ [])
    (hsolid : ∀ c ∈ a, pyIsSpace c = false) :
    pyRstripW (a ++ b) = a ++ pyRstripW b := by
  have harev : a.reverse.dropWhile pyIsSpace = a.reverse := by
    rcases hx : a.reverse with _ | ⟨c, r⟩
    · rw [List.reverse_eq_nil_iff] at hx
      exact absurd hx ha
    · rw [List.dropWhile_cons, hsolid c (by
        rw [← List.mem_reverse, hx]; exact List.mem_cons_self c r)]
      simp
  unfold pyRstripW
  rw [List.reverse_append, List.dropWhile_append]
  by_cases hbe : (b.reverse.dropWhile pyIsSpace).isEmpty = true
  · rw [if_pos hbe, harev, List.reverse_reverse]
    rw [List.isEmpty_iff] at hbe
    rw [hbe]
    simp
  · rw [if_neg hbe, List.reverse_append, List.reverse_reverse]

/-- The right strip is idempotent. -/
theorem pyRstripW_idem (l : List Char) :
    pyRstripW (pyRstripW l) = pyRstripW l := by
  unfold pyRstripW
  rw [List.reverse_reverse]
  have : (l.reverse.dropWhile pyIsSpace).dropWhile pyIsSpace
      = l.reverse.dropWhile pyIsSpace := by
    rcases hx : l.reverse.dropWhile pyIsSpace with _ | ⟨c, r⟩
    · rfl
    · have := List.head?_dropWhile_not pyIsSpace l.reverse
      rw [hx] at this
      simp only [List.head?_cons] at this
      rw [List.dropWhile_cons, this]
      simp
  rw [this]

/-- Stripping after right-stripping is the same as stripping. -/
theorem pyStrip_rstrip (l : List Char) :
    pyStrip (pyRstripW l) = pyStrip l := by
  by_cases hD : l.dropWhile pyIsSpace = []
  · rw [List.dropWhile_eq_nil_iff] at hD
    have h1 : pyRstripW l = [] := (pyRstripW_nil_iff l).mpr hD
    have h2 : pyStrip l = [] := (pyStrip_nil_iff l).mpr hD
    rw [h1, h2]
    rfl
  · rcases hx : l.dropWhile pyIsSpace with _ | ⟨c, D'⟩
    · exact absurd hx hD
    · have hc : pyIsSpace c = false := by
        have := List.head?_dropWhile_not pyIsSpace l
        rw [hx] at this
        simpa using this
      have hT : ∀ x ∈ l.takeWhile pyIsSpace, pyIsSpace x = true :=
        fun x hx' => List.mem_takeWhile_imp hx'
      have hDrne : pyRstripW (c :: D') ≠ [] := by
        intro hnil
        have hall := (pyRstripW_nil_iff (c :: D')).mp hnil
        have := hall c (List.mem_cons_self c D')
        rw [hc] at this
        exact Bool.false_ne_true this
      have hsplit : l = l.takeWhile pyIsSpace ++ (c :: D') := by
        rw [← hx, List.takeWhile_append_dropWhile]
      have hhead : ∃ r, pyRstripW (c :: D') = c :: r := by
        rcases hy : pyRstripW (c :: D') with _ | ⟨a, r⟩
        · exact absurd hy hDrne
        · have hdec := pyRstripW_decomp (c :: D')
          rw [hy] at hdec
          have : a = c := by
            have := congrArg List.head? hdec
            simpa using this.symm
          exact ⟨r, by rw [this]⟩
      conv_lhs => rw [hsplit]
      conv_rhs => rw [hsplit]
      rw [pyRstripW_append _ _ hDrne]
      unfold pyStrip pyLstripW
      rw [List.dropWhile_append_of_pos hT, List.dropWhile_append_of_pos hT]
      obtain ⟨r, hr⟩ := hhead
      rw [hr, List.dropWhile_cons, hc]
      simp only [Bool.false_eq_true, if_false]
      rw [← hr, pyRstripW_idem]
      rw [List.dropWhile_cons, hc]
      simp

/-! ### lowerStartsWith and header-line lemmas -/

/-- A lowered-prefix test succeeds exactly when the string splits into a
piece lowering to the pattern followed by a remainder. -/
theorem lsw_exists (pat : List Char) :
    ∀ s : List Char, lowerStartsWith s pat = true
      ↔ ∃ u t, s = u ++ t ∧ u.map pyToLowerChar = pat := by
  induction pat with
  | nil =>
    intro s
    constructor
    · intro _
      exact ⟨[], s, rfl, rfl⟩
    · intro _
      cases s <;> simp [lowerStartsWith, startsWithLit]
  | cons p ps ih =>
    intro s
    cases s with
    | nil =>
      simp only [lowerStartsWith, List.map_nil]
      constructor
      · intro h
        exact absurd h (by simp [startsWithLit])
      · rintro ⟨u, t, h1, h2⟩
        rcases u with _ | ⟨a, u'⟩
        · simp at h2
        · simp at h1
    | cons c cs =>
      have hstep : lowerStartsWith (c :: cs) (p :: ps) = true
          ↔ pyToLowerChar c = p ∧ lowerStartsWith cs ps = true := by
        simp [lowerStartsWith, startsWithLit]
      rw [hstep, ih cs]
      constructor
      · rintro ⟨hc, u, t, h1, h2⟩
        exact ⟨c :: u, t, by rw [h1]; rfl, by simp [h2, hc]⟩
      · rintro ⟨u, t, h1, h2⟩
        rcases u with _ | ⟨a, u'⟩
        · simp at h2
        · simp only [List.cons_append, List.cons.injEq] at h1
          simp only [List.map_cons, List.cons.injEq] at h2
          refine ⟨by rw [h1.1]; exact h2.1, u', t, h1.2, h2.2⟩

/-- The characters of the header marker are not whitespace. -/
theorem marker_not_space :
    ∀ p ∈ s2l "pregunta", pyIsSpace p = false := by decide

/-- A piece lowering to a whitespace-free pattern is itself
whitespace-free. -/
theorem solid_of_map_lower (u pat : List Char)
    (hpat : ∀ p ∈ pat, pyIsSpace p = false)
    (h : u.map pyToLowerChar = pat) : ∀ c ∈ u, pyIsSpace c = false := by
  intro c hc
  have : pyToLowerChar c ∈ pat := by
    rw [← h]
    exact List.mem_map_of_mem pyToLowerChar hc
  exact notSpace_of_lower_eq c (pyToLowerChar c) (hpat _ this) rfl

/-- Right-stripping preserves the header-line test. -/
theorem isHeaderPred_rstrip (l : List Char) (h : isHeaderPred l = true) :
    isHeaderPred (pyRstripW l) = true := by
  unfold isHeaderPred at *
  obtain ⟨u, t, h1, h2⟩ := (lsw_exists (s2l "pregunta") l).mp h
  have hsolid := solid_of_map_lower u (s2l "pregunta") marker_not_space h2
  have hune : u ≠ [] := by
    intro hu
    rw [hu] at h2
    simp [s2l] at h2
  rw [h1, pyRstripW_append_solid u t hune hsolid]
  exact (lsw_exists (s2l "pregunta") _).mpr ⟨u, pyRstripW t, rfl, h2⟩

/-- The header-line test on the right strip implies it on the line. -/
theorem isHeaderPred_of_rstrip (l : List Char)
    (h : isHeaderPred (pyRstripW l) = true) : isHeaderPred l = true := by
  unfold isHeaderPred at *
  obtain ⟨u, t, h1, h2⟩ := (lsw_exists (s2l "pregunta") (pyRstripW l)).mp h
  refine (lsw_exists (s2l "pregunta") l).mpr
    ⟨u, t ++ (l.reverse.takeWhile pyIsSpace).reverse, ?_, h2⟩
  conv_lhs => rw [pyRstripW_decomp l]
  rw [h1, List.append_assoc]

/-- A header line does not strip to nothing. -/
theorem isHeaderPred_strip_ne (l : List Char) (h : isHeaderPred l = true) :
    pyStrip l ≠ [] := by
  obtain ⟨u, t, h1, h2⟩ := (lsw_exists (s2l "pregunta") l).mp h
  have hsolid := solid_of_map_lower u (s2l "pregunta") marker_not_space h2
  intro hnil
  have hall := (pyStrip_nil_iff l).mp hnil
  rcases u with _ | ⟨a, u'⟩
  · simp [s2l] at h2
  · have hmema : a ∈ l := by
      rw [h1]
      exact List.mem_cons_self a (u' ++ t)
    have haws := hall a hmema
    have := hsolid a (List.mem_cons_self a u')
    rw [haws] at this
    simp at this

/-- A header line passes the comprehension filter. -/
theorem keepLine_of_header (l : List Char) (h : isHeaderPred l = true) :
    keepLine l = true := by
  unfold keepLine
  have := isHeaderPred_strip_ne l h
  rcases hx : pyStrip l with _ | _
  · exact absurd hx this
  · simp [hx]

/-- A line stripping nonempty passes the comprehension filter. -/
theorem keepLine_of_strip (l : List Char) (h : pyStrip l ≠ []) :
    keepLine l = true := by
  unfold keepLine
  rcases hx : pyStrip l with _ | _
  · exact absurd hx h
  · simp [hx]

/-! ### splitlines and join lemmas -/

/-- Processing a break-free piece followed by a newline emits that piece. -/
theorem splitlinesAux_line (x : List Char) (hx : noLB x = true) :
    ∀ cur rest, splitlinesAux cur (x ++ '\n' :: rest)
      = (cur.reverse ++ x) :: splitlinesAux [] rest := by
  induction x with
  | nil =>
    intro cur rest
    show splitlinesAux cur ('\n' :: rest) = (cur.reverse ++ []) :: splitlinesAux [] rest
    simp only [splitlinesAux]
    rw [if_neg (by decide), if_pos (by decide), List.append_nil]
  | cons c cs ih =>
    intro cur rest
    have hc : isLineBreak c = false := by
      unfold noLB at hx
      have := List.all_eq_true.mp hx c (List.mem_cons_self c cs)
      simpa using this
    have hcr : ¬ c = '\r' := by
      intro hcc
      rw [hcc] at hc
      simp [isLineBreak] at hc
    have hcs : noLB cs = true := by
      unfold noLB at hx ⊢
      rw [List.all_eq_true] at hx ⊢
      exact fun a ha => hx a (List.mem_cons_of_mem c ha)
    simp only [List.cons_append, splitlinesAux]
    rw [if_neg hcr, if_neg (by rw [hc]; exact Bool.false_ne_true)]
    rw [List.append_eq, ih hcs (c :: cur) rest]
    simp

/-- Processing a break-free remainder emits one final piece (unless both
the accumulator and the remainder are empty). -/
theorem splitlinesAux_last (x : List Char) (hx : noLB x = true) :
    ∀ cur, (cur ≠ [] ∨ x ≠ []) →
      splitlinesAux cur x = [cur.reverse ++ x] := by
  induction x with
  | nil =>
    intro cur hne
    rcases hne with hne | hne
    · have : ¬ cur.isEmpty = true := by
        intro hh
        exact hne (List.isEmpty_iff.mp hh)
      simp [splitlinesAux, this]
    · exact absurd rfl hne
  | cons c cs ih =>
    intro cur _
    have hc : isLineBreak c = false := by
      unfold noLB at hx
      have := List.all_eq_true.mp hx c (List.mem_cons_self c cs)
      simpa using this
    have hcr : ¬ c = '\r' := by
      intro hcc
      rw [hcc] at hc
      simp [isLineBreak] at hc
    have hcs : noLB cs = true := by
      unfold noLB at hx ⊢
      rw [List.all_eq_true] at hx ⊢
      exact fun a ha => hx a (List.mem_cons_of_mem c ha)
    simp only [splitlinesAux]
    rw [if_neg hcr, if_neg (by rw [hc]; exact Bool.false_ne_true)]
    rw [ih hcs (c :: cur) (Or.inl (by simp))]
    simp

/-- Splitting the newline-join of break-free lines whose last line is
nonempty recovers the lines. -/
theorem pySplitlines_join (ls : List (List Char)) (hlb : ∀ l ∈ ls, noLB l = true)
    (hne : ls ≠ []) (hlast : ls.getLast? ≠ some []) :
    pySplitlines (joinWith ['\n'] ls) = ls := by
  induction ls with
  | nil => exact absurd rfl hne
  | cons x xs ih =>
    rcases xs with _ | ⟨y, t⟩
    · have hxne : x ≠ [] := by
        intro hx
        rw [hx] at hlast
        simp [List.getLast?] at hlast
      unfold pySplitlines
      rw [show joinWith ['\n'] [x] = x from rfl]
      rw [splitlinesAux_last x (hlb x (List.mem_cons_self x [])) []
        (Or.inr hxne)]
      rfl
    · have hjoin : joinWith ['\n'] (x :: y :: t)
          = x ++ '\n' :: joinWith ['\n'] (y :: t) := by
        simp [joinWith]
      unfold pySplitlines
      rw [hjoin, splitlinesAux_line x (hlb x (List.mem_cons_self x _)) [] _]
      have hrec : pySplitlines (joinWith ['\n'] (y :: t)) = y :: t := by
        refine ih (fun l hl => hlb l (List.mem_cons_of_mem x hl)) (by simp) ?_
        rwa [List.getLast?_cons_cons] at hlast
      unfold pySplitlines at hrec
      rw [hrec]
      simp

/-! ### Claim C1 -/

/-- C1 (amended): parse_chunk succeeds exactly when the first line that
begins case-insensitively with the header marker exists and satisfies the
full header pattern; in particular a block with no marker line fails.  (As
stated the claim is refuted: a marker line that the header regex rejects
also makes parsing fail.) -/
theorem claim_C1 :
    ∀ chunk : List Char,
      ((parse_chunk chunk).isSome
        ↔ ∃ ln, (processedLines chunk).find? isHeaderPred = some ln
            ∧ (parse_header ln).isSome)
      ∧ ((pySplitlines chunk).any isHeaderPred = false
          → parse_chunk chunk = none) := by
  intro chunk
  have hiff : (parse_chunk chunk).isSome
      ↔ ∃ ln, (processedLines chunk).find? isHeaderPred = some ln
          ∧ (parse_header ln).isSome := by
    unfold parse_chunk
    rcases hf : (processedLines chunk).find? isHeaderPred with _ | hl
    · simp
    · rcases hp : parse_header hl with _ | t
      · simp [hp]
      · simp [hp]
  refine ⟨hiff, ?_⟩
  intro hany
  rcases hp : parse_chunk chunk with _ | q
  · rfl
  · exfalso
    have hs : (parse_chunk chunk).isSome = true := by rw [hp]; rfl
    obtain ⟨ln, hfind, _⟩ := hiff.mp hs
    have hpred : isHeaderPred ln = true := List.find?_some hfind
    have hmem : ln ∈ processedLines chunk := List.mem_of_find?_eq_some hfind
    unfold processedLines at hmem
    obtain ⟨raw, hraw, hrfl⟩ := List.mem_map.mp hmem
    have hrawmem : raw ∈ pySplitlines chunk := (List.mem_filter.mp hraw).1
    have hpredraw : isHeaderPred raw = true := by
      apply isHeaderPred_of_rstrip
      rw [hrfl]
      exact hpred
    have : (pySplitlines chunk).any isHeaderPred = true :=
      List.any_eq_true.mpr ⟨raw, hrawmem, hpredraw⟩
    rw [hany] at this
    exact Bool.false_ne_true this

/-- C1 counterexample: the block "Pregunta mal" has a line beginning with
the header marker, yet parse_chunk fails, because the line does not match
the full header pattern — refuting the claim that a marker line alone
guarantees success. -/
theorem claim_C1_cex :
    (pySplitlines (s2l "Pregunta mal")).any isHeaderPred = true
    ∧ parse_chunk (s2l "Pregunta mal") = none := by
  constructor
  · decide
  · decide

/-- C1 witness: a block with no marker line anywhere fails to parse. -/
theorem claim_C1_witness :
    (pySplitlines (s2l "Sin encabezado")).any isHeaderPred = false
    ∧ parse_chunk (s2l "Sin encabezado") = none :=
  ⟨by decide, (claim_C1 (s2l "Sin encabezado")).2 (by decide)⟩

/-! ### Claim C2 -/

/-- A failing element ends a takeWhile regardless of what follows it. -/
theorem takeWhile_stop {α : Type} (p : α → Bool) (y : α) (hy : p y = false) :
    ∀ (xs zs zs' : List α),
      (xs ++ y :: zs).takeWhile p = (xs ++ y :: zs').takeWhile p := by
  intro xs
  induction xs with
  | nil =>
    intro zs zs'
    simp [List.takeWhile_cons, hy]
  | cons x xs ih =>
    intro zs zs'
    simp only [List.cons_append, List.takeWhile_cons]
    cases hpx : p x
    · simp
    · simp [ih zs zs']

/-- META_RE sees the same stripped line before and after an rstrip. -/
theorem metaLine_rstrip (l : List Char) :
    metaLine (pyRstripW l) = metaLine l := by
  unfold metaLine
  rw [pyStrip_rstrip]

/-- Projecting the classification fields of a built question. -/
theorem buildQuestion_class (lines : List (List Char)) (hl : List Char)
    (n : Nat) (e : List Char) (y : Option Int) :
    classificationOf (some (buildQuestion lines hl n e y))
      = some (classifyMeta
          (metaOf (lines.drop (lines.findIdx (fun l => l = hl) + 1)))) := rfl

/-- C2 (amended): blank lines are removed before the line scan, so
metadata consumption runs over the blank-filtered lines immediately after
the header and stops at the first non-matching nonblank line; everything
after such a line — here an arbitrary continuation L2 versus nothing —
cannot contribute metadata.  (As stated the claim is refuted: a metadata
line separated from the header only by a blank line IS consumed, because
the blank line is filtered out first.) -/
theorem claim_C2 (header bad : List Char) (L1 L2 : List (List Char))
    (hh : isHeaderPred header = true) (hhlb : noLB header = true)
    (hL1 : ∀ l ∈ L1, noLB l = true)
    (hbadlb : noLB bad = true) (hbadne : pyStrip bad ≠ [])
    (hbadmeta : metaLine bad = none)
    (hL2 : ∀ l ∈ L2, noLB l = true ∧ pyStrip l ≠ []) :
    classificationOf
        (parse_chunk (joinWith ['\n'] (header :: L1 ++ bad :: L2)))
      = classificationOf
        (parse_chunk (joinWith ['\n'] (header :: L1 ++ [bad]))) := by
  have hstrip_ne_nil : ∀ x : List Char, pyStrip x ≠ [] → x ≠ [] := by
    intro x hx hxe
    rw [hxe] at hx
    exact hx rfl
  have hsplit : ∀ L2' : List (List Char),
      (∀ l ∈ L2', noLB l = true ∧ pyStrip l ≠ []) →
      pySplitlines (joinWith ['\n'] (header :: L1 ++ bad :: L2'))
        = header :: L1 ++ bad :: L2' := by
    intro L2' hL2'
    apply pySplitlines_join
    · intro l hl
      rcases List.mem_cons.mp hl with h | h
      · rw [h]; exact hhlb
      · rcases List.mem_append.mp h with h' | h'
        · exact hL1 l h'
        · rcases List.mem_cons.mp h' with h'' | h''
          · rw [h'']; exact hbadlb
          · exact (hL2' l h'').1
    · simp
    · have hlast : (header :: L1 ++ bad :: L2').getLast?
          = (bad :: L2').getLast? := by
        rw [show header :: L1 ++ bad :: L2'
            = (header :: L1) ++ (bad :: L2') from by simp]
        rw [List.getLast?_append]
        rcases hx : (bad :: L2').getLast? with _ | x
        · rw [List.getLast?_eq_none_iff] at hx
          exact absurd hx (by simp)
        · rfl
      rw [hlast]
      intro hcon
      have hmem := List.mem_of_mem_getLast? hcon
      rcases List.mem_cons.mp hmem with h | h
      · exact hstrip_ne_nil bad hbadne h.symm
      · exact hstrip_ne_nil [] (hL2' [] h).2 rfl
  have hkeep_bad : keepLine bad = true := keepLine_of_strip bad hbadne
  have hkeep_h : keepLine header = true := keepLine_of_header header hh
  have hproc : ∀ L2' : List (List Char),
      (∀ l ∈ L2', noLB l = true ∧ pyStrip l ≠ []) →
      processedLines (joinWith ['\n'] (header :: L1 ++ bad :: L2'))
        = pyRstripW header ::
            ((L1.filter keepLine).map pyRstripW
              ++ pyRstripW bad :: (L2'.filter keepLine).map pyRstripW) := by
    intro L2' hL2'
    unfold processedLines
    rw [hsplit L2' hL2']
    rw [show header :: L1 ++ bad :: L2' = header :: (L1 ++ bad :: L2') from rfl]
    rw [List.filter_cons_of_pos hkeep_h, List.filter_append,
      List.filter_cons_of_pos hkeep_bad]
    simp [List.map_append]
  have hL2nil : ∀ l ∈ ([] : List (List Char)), noLB l = true ∧ pyStrip l ≠ [] := by
    intro l hl
    exact absurd hl (List.not_mem_nil l)
  have hhead_r : isHeaderPred (pyRstripW header) = true := isHeaderPred_rstrip header hh
  have hfind : ∀ tail : List (List Char),
      (pyRstripW header :: tail).find? isHeaderPred = some (pyRstripW header) :=
    fun tail => List.find?_cons_of_pos tail hhead_r
  have hmetaR : (fun l => (metaLine l).isSome) (pyRstripW bad) = false := by
    simp only [metaLine_rstrip, hbadmeta]
    rfl
  unfold parse_chunk
  rw [hproc L2 hL2, hproc [] hL2nil, hfind, hfind]
  dsimp only
  rcases hph : parse_header (pyRstripW header) with _ | t
  · rfl
  · simp only [Option.map_some']
    rw [buildQuestion_class, buildQuestion_class]
    have hidx : ∀ tail : List (List Char),
        (pyRstripW header :: tail).findIdx (fun l => l = pyRstripW header) = 0 := by
      intro tail
      simp [List.findIdx_cons]
    rw [hidx, hidx]
    simp only [List.drop_succ_cons, List.drop_zero]
    have hregion : metaOf ((L1.filter keepLine).map pyRstripW
          ++ pyRstripW bad :: (L2.filter keepLine).map pyRstripW)
        = metaOf ((L1.filter keepLine).map pyRstripW
          ++ pyRstripW bad :: ([].filter keepLine).map pyRstripW) := by
      unfold metaOf metaRegionOf
      rw [takeWhile_stop (fun l => (metaLine l).isSome) (pyRstripW bad) hmetaR]
    rw [hregion]

/-- C2 counterexample: in the block with a blank line between the header
and "Tema: Cardio", the metadata line IS consumed — topic is Cardio —
refuting the claim that blank-line separation prevents consumption. -/
theorem claim_C2_cex :
    classificationOf (parse_chunk
        (s2l "Pregunta 1 (ENARM 2023):\n\nTema: Cardio\nTexto"))
      = some (none, some (s2l "Cardio"), none, none) := by decide

/-- C2 witness: the amended claim applied to a concrete block — metadata
after the non-matching line "cuerpo" is ignored. -/
theorem claim_C2_witness :
    (metaLine (s2l "cuerpo") = none ∧ pyStrip (s2l "cuerpo") ≠ [])
    ∧ classificationOf (parse_chunk (joinWith ['\n']
        (s2l "Pregunta 1 (ENARM 2023):" :: [s2l "Tema: A"]
          ++ s2l "cuerpo" :: [s2l "Subtema: B"])))
      = classificationOf (parse_chunk (joinWith ['\n']
        (s2l "Pregunta 1 (ENARM 2023):" :: [s2l "Tema: A"]
          ++ [s2l "cuerpo"]))) :=
  ⟨⟨by decide, by decide⟩,
    claim_C2 (s2l "Pregunta 1 (ENARM 2023):") (s2l "cuerpo")
      [s2l "Tema: A"] [s2l "Subtema: B"]
      (by decide) (by decide) (by decide) (by decide) (by decide) (by decide)
      (by decide)⟩

/-! ### Claim C3 -/

/-- The options of a built question are collected from its option region. -/
theorem buildQuestion_options (lines : List (List Char)) (hl : List Char)
    (n : Nat) (e : List Char) (y : Option Int) :
    (buildQuestion lines hl n e y).options
      = (optionRegionOf lines hl).filterMap
          (fun l => (optMatch (pyStrip l)).map
            (fun p => (⟨p.1, pyStrip p.2, none⟩ : AnswerOption))) := rfl

/-- The option region is a sublist of the whole line list. -/
theorem optionRegionOf_sublist (lines : List (List Char)) (hl : List Char) :
    (optionRegionOf lines hl).Sublist lines := by
  unfold optionRegionOf
  refine (List.takeWhile_sublist _).trans ?_
  refine (List.drop_sublist _ _).trans ?_
  refine (List.dropWhile_sublist _).trans ?_
  refine (List.drop_sublist _ _).trans ?_
  exact List.drop_sublist _ _

/-- Mapping the letter out of collected options equals collecting letters. -/
theorem optIds_filterMap (L : List (List Char)) :
    ((L.filterMap (fun l => (optMatch (pyStrip l)).map
        (fun p => (⟨p.1, pyStrip p.2, none⟩ : AnswerOption)))).map
          (fun o => o.id))
      = L.filterMap (fun l => (optMatch (pyStrip l)).map (fun p => p.1)) := by
  rw [List.map_filterMap]
  congr 1
  funext l
  rcases optMatch (pyStrip l) with _ | p <;> rfl

/-- C3 (amended): a parsed question's option letters are exactly the
letters of the option-shaped lines its option loop scans, in document
encounter order; they form a sublist of all option-shaped letters of the
block, and are pairwise distinct whenever the block's option-shaped lines
carry pairwise distinct letters.  (As stated the claim is refuted: the
parser never enforces uniqueness, so duplicate letters in the source
produce duplicate option ids.) -/
theorem claim_C3 (chunk : List Char)
    (h : (allOptionLetters chunk).Nodup) :
    (optIdsOf (parse_chunk chunk)).Sublist (allOptionLetters chunk)
    ∧ (optIdsOf (parse_chunk chunk)).Nodup := by
  rcases hp : parse_chunk chunk with _ | q
  · constructor
    · exact List.nil_sublist _
    · exact List.nodup_nil
  · unfold parse_chunk at hp
    rcases hf : (processedLines chunk).find? isHeaderPred with _ | hl
    · rw [hf] at hp
      simp at hp
    · rw [hf] at hp
      dsimp only at hp
      rcases hph : parse_header hl with _ | t
      · rw [hph] at hp
        simp at hp
      · rw [hph] at hp
        simp only [Option.map_some', Option.some_inj] at hp
        have hsub : (optIdsOf (some q)).Sublist (allOptionLetters chunk) := by
          rw [← hp]
          show ((buildQuestion (processedLines chunk) hl t.1 t.2.1
              t.2.2).options.map (fun o => o.id)).Sublist
            (allOptionLetters chunk)
          rw [buildQuestion_options, optIds_filterMap]
          unfold allOptionLetters
          exact List.Sublist.filterMap _
            (optionRegionOf_sublist (processedLines chunk) hl)
        exact ⟨hsub, hsub.nodup h⟩

/-- C3 counterexample: a block with two option lines labelled A yields
option ids A, A — not pairwise distinct — refuting the uniqueness claim. -/
theorem claim_C3_cex :
    optIdsOf (parse_chunk (s2l "Pregunta 1 (ENARM 2023):\nStem\nA) uno\nA) dos"))
      = ['A', 'A']
    ∧ ¬ (optIdsOf (parse_chunk
        (s2l "Pregunta 1 (ENARM 2023):\nStem\nA) uno\nA) dos"))).Nodup := by
  constructor
  · decide
  · decide

/-- C3 witness: the amended claim applied to a block with distinct option
letters. -/
theorem claim_C3_witness :
    (allOptionLetters
        (s2l "Pregunta 1 (ENARM 2023):\ntexto\nA) uno\nB) dos")).Nodup
    ∧ ((optIdsOf (parse_chunk
          (s2l "Pregunta 1 (ENARM 2023):\ntexto\nA) uno\nB) dos"))).Sublist
        (allOptionLetters (s2l "Pregunta 1 (ENARM 2023):\ntexto\nA) uno\nB) dos"))
      ∧ (optIdsOf (parse_chunk
          (s2l "Pregunta 1 (ENARM 2023):\ntexto\nA) uno\nB) dos"))).Nodup) :=
  ⟨by decide,
    claim_C3 (s2l "Pregunta 1 (ENARM 2023):\ntexto\nA) uno\nB) dos") (by decide)⟩

/-! ### Claim C4 -/

/-- C4 (amended): every parsed question's id is mkId of its
(source_exam, year, number) triple — the f-string of parse_chunk — which
is total and matches the claimed format with two placeholder quirks: the
year placeholder XXXX is used when the year is absent AND when it is 0
(0 is falsy in the f-string), and an empty exam name is replaced by the
placeholder EXAM.  The claim's two examples hold. -/
theorem claim_C4 :
    (∀ chunk : List Char,
        idOf (parse_chunk chunk)
          = (tripleOf (parse_chunk chunk)).map (fun t => mkId t.1 t.2.1 t.2.2))
    ∧ mkId (s2l "ENARM") (some 2023) 7 = s2l "ENARM-2023-07"
    ∧ mkId (s2l "X Y") none 1 = s2l "XY-XXXX-01"
    ∧ (∀ (exam : List Char) (n : Nat), mkId exam (some 0) n = mkId exam none n)
    ∧ (∀ (y : Option Int) (n : Nat), mkId [] y n = mkId (s2l "EXAM") y n) := by
  refine ⟨?_, by decide, by decide, ?_, ?_⟩
  · intro chunk
    unfold parse_chunk
    rcases (processedLines chunk).find? isHeaderPred with _ | hl
    · rfl
    · dsimp only
      rcases parse_header hl with _ | t
      · rfl
      · rfl
  · intro exam n
    rfl
  · intro y n
    rfl

/-- C4 counterexample: the block "Pregunta 1 (ENARM 0):" parses with year
present (0), yet the id uses the XXXX placeholder instead of the year —
refuting the claim that XXXX appears exactly when the year is absent. -/
theorem claim_C4_cex :
    idOf (parse_chunk (s2l "Pregunta 1 (ENARM 0):")) = some (s2l "ENARM-XXXX-01")
    ∧ tripleOf (parse_chunk (s2l "Pregunta 1 (ENARM 0):"))
        = some (s2l "ENARM", some 0, 1)
    ∧ s2l "ENARM-XXXX-01" ≠ s2l "ENARM-0-01" := by
  refine ⟨by decide, by decide, by decide⟩

/-! ### Claim C5 — segmentation round trip -/

/-- Dropping the measured takeWhile prefix is dropWhile. -/
theorem drop_length_takeWhile {α : Type} (p : α → Bool) :
    ∀ l : List α, l.drop (l.takeWhile p).length = l.dropWhile p := by
  intro l
  induction l with
  | nil => rfl
  | cons x xs ih =>
    rw [List.takeWhile_cons, List.dropWhile_cons]
    cases hx : p x
    · simp
    · simp [ih]

/-- A block splits into its leading newlines and the rest. -/
theorem dropNl_decomp (l : List Char) :
    l = List.replicate (leadNl l) '\n' ++ dropNl l := by
  unfold leadNl dropNl
  conv_lhs => rw [← List.takeWhile_append_dropWhile (fun c => decide (c = '\n')) l]
  have : l.takeWhile (fun c => decide (c = '\n'))
      = List.replicate (l.takeWhile (fun c => decide (c = '\n'))).length '\n' :=
    List.eq_replicate_of_mem (fun b hb => by
      have := List.mem_takeWhile_imp hb
      simpa using this)
  rw [← this]

/-- A block splits into its trailing-newline strip and its trailing
newlines. -/
theorem rstripNl_decomp (l : List Char) :
    l = rstripNl l ++ List.replicate (trailNl l) '\n' := by
  unfold rstripNl trailNl
  conv_lhs => rw [← List.reverse_reverse l,
    ← List.takeWhile_append_dropWhile (fun c => decide (c = '\n')) l.reverse,
    List.reverse_append]
  have : l.reverse.takeWhile (fun c => decide (c = '\n'))
      = List.replicate (l.reverse.takeWhile (fun c => decide (c = '\n'))).length '\n' :=
    List.eq_replicate_of_mem (fun b hb => by
      have := List.mem_takeWhile_imp hb
      simpa using this)
  rw [this, List.reverse_replicate, List.length_replicate]

/-- The trailing-newline strip does not end with a newline. -/
theorem rstripNl_getLast (l : List Char) :
    (rstripNl l).getLast? ≠ some '\n' := by
  unfold rstripNl
  rw [List.getLast?_reverse]
  have := List.head?_dropWhile_not (fun c => decide (c = '\n')) l.reverse
  rcases hx : (l.reverse.dropWhile (fun c => decide (c = '\n'))).head? with _ | d
  · intro h
    exact Option.noConfusion h
  · rw [hx] at this
    intro h
    have hd : d = '\n' := Option.some.inj h
    rw [hd] at this
    simp at this

/-- Characters of the trailing-newline strip come from the block. -/
theorem rstripNl_subset (l : List Char) : ∀ c ∈ rstripNl l, c ∈ l := by
  intro c hc
  unfold rstripNl at hc
  rw [List.mem_reverse] at hc
  have := (List.dropWhile_sublist (fun c => decide (c = '\n'))).subset hc
  rwa [List.mem_reverse] at this

/-- Characters of the leading-newline drop come from the block. -/
theorem dropNl_subset (l : List Char) : ∀ c ∈ dropNl l, c ∈ l := by
  intro c hc
  exact (List.dropWhile_sublist (fun c => decide (c = '\n'))).subset hc

/-- A newline is whitespace. -/
theorem nl_isSpace : pyIsSpace '\n' = true := by decide

/-- A block that strips nonempty has a nonempty leading-newline drop. -/
theorem dropNl_ne_nil (l : List Char) (h : pyStrip l ≠ []) : dropNl l ≠ [] := by
  intro hnil
  unfold dropNl at hnil
  rw [List.dropWhile_eq_nil_iff] at hnil
  apply h
  rw [pyStrip_nil_iff]
  intro c hc
  rw [show c = '\n' from by simpa using hnil c hc]
  exact nl_isSpace

/-- The head of the leading-newline drop is not a newline. -/
theorem dropNl_head (l : List Char) : (dropNl l).head? ≠ some '\n' := by
  unfold dropNl
  have := List.head?_dropWhile_not (fun c => decide (c = '\n')) l
  rcases hx : (l.dropWhile (fun c => decide (c = '\n'))).head? with _ | d
  · intro h
    exact Option.noConfusion h
  · rw [hx] at this
    intro h
    have hd : d = '\n' := Option.some.inj h
    rw [hd] at this
    simp at this

/-- matchDelim fails when the input does not start with a newline. -/
theorem matchDelim_none_head (c : Char) (cs : List Char) (h : ¬ c = '\n') :
    matchDelim (c :: cs) = none := by
  unfold matchDelim
  rw [List.takeWhile_cons]
  simp [h]

/-- matchDelim fails when the character after the leading newlines is not
the delimiter character. -/
theorem matchDelim_none_nonhr (s : List Char)
    (h : (s.dropWhile (fun c => c = '\n')).head? ≠ some '─') :
    matchDelim s = none := by
  unfold matchDelim
  dsimp only
  by_cases ha : (s.takeWhile (fun c => decide (c = '\n'))).length = 0
  · rw [if_pos ha]
  · rw [if_neg ha, drop_length_takeWhile]
    rcases hx : s.dropWhile (fun c => decide (c = '\n')) with _ | ⟨d, r⟩
    · simp
    · rw [hx] at h
      have hd : ¬ d = '─' := by
        intro hdd
        exact h (by rw [hdd]; rfl)
      rw [List.takeWhile_cons]
      simp [hd]

/-- matchDelim consumes a full delimiter occurrence: the leading newlines,
the run of at least ten delimiter characters, the following newlines, and
returns the remainder, which must not start with a newline (greediness). -/
theorem matchDelim_delim (t k m : Nat) (tail : List Char) (hk : 10 ≤ k)
    (htail : tail.head? ≠ some '\n') :
    matchDelim (List.replicate (t+1) '\n' ++ (List.replicate k '─'
      ++ (List.replicate (m+1) '\n' ++ tail))) = some tail := by
  have hnl : ∀ a ∈ List.replicate (t+1) '\n',
      (fun c => decide (c = '\n')) a = true := by
    intro a ha
    rw [List.eq_of_mem_replicate ha]
    decide
  have hhr : ∀ a ∈ List.replicate k '─',
      (fun c => decide (c = '─')) a = true := by
    intro a ha
    rw [List.eq_of_mem_replicate ha]
    decide
  have hnl2 : ∀ a ∈ List.replicate (m+1) '\n',
      (fun c => decide (c = '\n')) a = true := by
    intro a ha
    rw [List.eq_of_mem_replicate ha]
    decide
  have htw_nl_tail : tail.takeWhile (fun c => decide (c = '\n')) = [] := by
    rcases tail with _ | ⟨d, r⟩
    · rfl
    · have hd : ¬ d = '\n' := fun hdd => htail (by rw [hdd]; rfl)
      rw [List.takeWhile_cons]
      simp [hd]
  have htw_hrY : (List.replicate k '─'
      ++ (List.replicate (m+1) '\n' ++ tail)).takeWhile
        (fun c => decide (c = '\n')) = [] := by
    rcases k with _ | k'
    · omega
    · rw [List.replicate_succ, List.cons_append, List.takeWhile_cons]
      simp
  have htw_nlY : (List.replicate (m+1) '\n' ++ tail).takeWhile
      (fun c => decide (c = '─')) = [] := by
    rw [List.replicate_succ, List.cons_append, List.takeWhile_cons]
    simp
  unfold matchDelim
  dsimp only
  rw [List.takeWhile_append_of_pos hnl, htw_hrY, List.append_nil,
    List.length_replicate, if_neg (by omega)]
  have hdrop1 : (List.replicate (t+1) '\n' ++ (List.replicate k '─'
      ++ (List.replicate (m+1) '\n' ++ tail))).drop (t+1)
      = List.replicate k '─' ++ (List.replicate (m+1) '\n' ++ tail) := by
    have := List.drop_left (List.replicate (t+1) '\n')
      (List.replicate k '─' ++ (List.replicate (m+1) '\n' ++ tail))
    rwa [List.length_replicate] at this
  rw [hdrop1, List.takeWhile_append_of_pos hhr, htw_nlY, List.append_nil,
    List.length_replicate, if_neg (by omega)]
  have hdrop2 : (List.replicate k '─'
      ++ (List.replicate (m+1) '\n' ++ tail)).drop k
      = List.replicate (m+1) '\n' ++ tail := by
    have := List.drop_left (List.replicate k '─')
      (List.replicate (m+1) '\n' ++ tail)
    rwa [List.length_replicate] at this
  rw [hdrop2, List.takeWhile_append_of_pos hnl2, htw_nl_tail, List.append_nil,
    List.length_replicate, if_neg (by omega)]
  have hdrop3 : (List.replicate (m+1) '\n' ++ tail).drop (m+1) = tail := by
    have := List.drop_left (List.replicate (m+1) '\n') tail
    rwa [List.length_replicate] at this
  rw [hdrop3]

/-- One-step equation of the scanner on a cons with positive fuel. -/
theorem splitDelimAux_cons_eq (fuel : Nat) (acc : List Char) (c : Char)
    (cs : List Char) :
    splitDelimAux (fuel + 1) acc (c :: cs)
      = match matchDelim (c :: cs) with
        | some rest => acc.reverse :: splitDelimAux fuel [] rest
        | none => splitDelimAux fuel (c :: acc) cs := rfl

/-- Scanning a block piece that contains no delimiter character and does
not end in a newline walks through it without matching. -/
theorem splitAux_core (core : List Char) (hhr : ∀ c ∈ core, ¬ c = '─')
    (hlast : core.getLast? ≠ some '\n') :
    ∀ (f : Nat) (acc tail : List Char),
      splitDelimAux (f + core.length) acc (core ++ tail)
        = splitDelimAux f (core.reverse ++ acc) tail := by
  induction core with
  | nil =>
    intro f acc tail
    simp
  | cons c cs ih =>
    intro f acc tail
    have hmd : matchDelim (c :: (cs ++ tail)) = none := by
      by_cases hc : c = '\n'
      · have hne : ¬ ∀ x ∈ c :: cs, x = '\n' := by
          intro hall
          rcases hgl : (c :: cs).getLast? with _ | a
          · rw [List.getLast?_eq_none_iff] at hgl
            exact List.noConfusion hgl
          · have hmem := List.mem_of_mem_getLast? hgl
            exact hlast (by rw [hgl, hall a hmem])
        have hdne : (c :: cs).dropWhile (fun c => decide (c = '\n')) ≠ [] := by
          intro hcon
          rw [List.dropWhile_eq_nil_iff] at hcon
          exact hne (fun x hx => by simpa using hcon x hx)
        rcases hdw : (c :: cs).dropWhile (fun c => decide (c = '\n')) with _ | ⟨d, r⟩
        · exact absurd hdw hdne
        · have hd_mem : d ∈ c :: cs := by
            have hdm : d ∈ (c :: cs).dropWhile (fun c => decide (c = '\n')) := by
              rw [hdw]
              exact List.mem_cons_self d r
            exact (List.dropWhile_sublist _).subset hdm
          have hd_hr : ¬ d = '─' := hhr d hd_mem
          apply matchDelim_none_nonhr
          have happ : ((c :: cs) ++ tail).dropWhile (fun c => decide (c = '\n'))
              = (d :: r) ++ tail := by
            rw [List.dropWhile_append, hdw]
            simp
          rw [show (c :: (cs ++ tail)) = (c :: cs) ++ tail from rfl, happ]
          simp [hd_hr]
      · exact matchDelim_none_head c (cs ++ tail) hc
    show splitDelimAux ((f + cs.length) + 1) acc (c :: (cs ++ tail))
      = splitDelimAux f ((c :: cs).reverse ++ acc) tail
    rw [splitDelimAux_cons_eq, hmd]
    have hcs_last : cs.getLast? ≠ some '\n' := by
      rcases cs with _ | ⟨y, t'⟩
      · simp
      · rwa [List.getLast?_cons_cons] at hlast
    rw [ih (fun x hx => hhr x (List.mem_cons_of_mem c hx)) hcs_last f (c :: acc) tail]
    simp

/-- Reaching a delimiter occurrence emits the accumulated piece and restarts
after the occurrence. -/
theorem splitAux_delim (f : Nat) (acc : List Char) (t k m : Nat)
    (tail : List Char) (hk : 10 ≤ k) (htail : tail.head? ≠ some '\n') :
    splitDelimAux (f + 1) acc (List.replicate (t+1) '\n'
        ++ (List.replicate k '─' ++ (List.replicate (m+1) '\n' ++ tail)))
      = acc.reverse :: splitDelimAux f [] tail := by
  have hmd := matchDelim_delim t k m tail hk htail
  rw [List.replicate_succ, List.cons_append] at hmd ⊢
  rw [splitDelimAux_cons_eq, hmd]

/-- Scanning a remainder with no delimiter character emits one final piece. -/
theorem splitAux_noHR (l : List Char) (hhr : ∀ c ∈ l, ¬ c = '─') :
    ∀ (f : Nat) (acc : List Char),
      splitDelimAux (f + l.length) acc l = [acc.reverse ++ l] := by
  induction l with
  | nil =>
    intro f acc
    rcases f with _ | f' <;> simp [splitDelimAux]
  | cons c cs ih =>
    intro f acc
    have hmd : matchDelim (c :: cs) = none := by
      by_cases hc : c = '\n'
      · apply matchDelim_none_nonhr
        rcases hdw : (c :: cs).dropWhile (fun c => decide (c = '\n')) with _ | ⟨d, r⟩
        · simp
        · have hd_mem : d ∈ c :: cs := by
            have hdm : d ∈ (c :: cs).dropWhile (fun c => decide (c = '\n')) := by
              rw [hdw]
              exact List.mem_cons_self d r
            exact (List.dropWhile_sublist _).subset hdm
          simp [hhr d hd_mem]
      · exact matchDelim_none_head c cs hc
    show splitDelimAux ((f + cs.length) + 1) acc (c :: cs) = [acc.reverse ++ c :: cs]
    rw [splitDelimAux_cons_eq, hmd]
    rw [ih (fun x hx => hhr x (List.mem_cons_of_mem c hx)) f (c :: acc)]
    simp

/-- Right-stripping ignores an all-whitespace suffix. -/
theorem pyRstripW_append_allws (l w : List Char)
    (hw : ∀ c ∈ w, pyIsSpace c = true) : pyRstripW (l ++ w) = pyRstripW l := by
  unfold pyRstripW
  rw [List.reverse_append,
    List.dropWhile_append_of_pos (fun a ha => hw a (List.mem_reverse.mp ha))]

/-- Stripping ignores an all-whitespace suffix. -/
theorem pyStrip_append_allws (l w : List Char)
    (hw : ∀ c ∈ w, pyIsSpace c = true) : pyStrip (l ++ w) = pyStrip l := by
  rw [← pyStrip_rstrip (l ++ w), pyRstripW_append_allws l w hw, pyStrip_rstrip]

/-- Stripping ignores an all-whitespace prefix. -/
theorem pyStrip_allws_append (w l : List Char)
    (hw : ∀ c ∈ w, pyIsSpace c = true) : pyStrip (w ++ l) = pyStrip l := by
  unfold pyStrip pyLstripW
  rw [List.dropWhile_append_of_pos hw]

/-- Stripping after removing the trailing newlines is stripping. -/
theorem pyStrip_rstripNl (b : List Char) : pyStrip (rstripNl b) = pyStrip b := by
  conv_rhs => rw [rstripNl_decomp b]
  rw [pyStrip_append_allws]
  intro c hc
  rw [List.eq_of_mem_replicate hc]
  exact nl_isSpace

/-- Stripping after removing the leading newlines is stripping. -/
theorem pyStrip_dropNl (b : List Char) : pyStrip (dropNl b) = pyStrip b := by
  conv_rhs => rw [dropNl_decomp b]
  rw [pyStrip_allws_append]
  intro c hc
  rw [List.eq_of_mem_replicate hc]
  exact nl_isSpace

/-- Unfolding joinD on a two-or-more-element list. -/
theorem joinD_cons_cons (k : Nat) (x y : List Char) (tl : List (List Char)) :
    joinD k (x :: y :: tl) = x ++ delimSep k ++ joinD k (y :: tl) := rfl

/-- joinD on a cons equals the head followed by the join tail. -/
theorem replicate_append_cons (t : Nat) (a : Char) (X : List Char) :
    List.replicate t a ++ a :: X = a :: (List.replicate t a ++ X) := by
  induction t with
  | zero => rfl
  | succ n ih => simp [List.replicate_succ, ih]

/-- joinD on a cons equals the head followed by the join tail. -/
theorem joinD_eq_joinTail (k : Nat) (x : List Char) (tl : List (List Char)) :
    joinD k (x :: tl) = x ++ joinTail k tl := by
  rcases tl with _ | ⟨y, tl'⟩
  · show x = x ++ []
    simp
  · rw [joinD_cons_cons]
    show x ++ delimSep k ++ joinD k (y :: tl')
      = x ++ (delimSep k ++ joinD k (y :: tl'))
    rw [List.append_assoc]

/-- Scanning the delimiter-join of good blocks yields pieces with the same
strips as the blocks. -/
theorem splitAux_join (k : Nat) (hk : 10 ≤ k) :
    ∀ (bs : List (List Char)) (b : List Char), goodBlock b →
      (∀ x ∈ bs, goodBlock x) →
      ∀ f : Nat, (joinD k (b :: bs)).length ≤ f →
        (splitDelimAux f [] (joinD k (b :: bs))).map pyStrip
          = (b :: bs).map pyStrip := by
  intro bs
  induction bs with
  | nil =>
    intro b hb _ f hf
    have hj : joinD k [b] = b := rfl
    rw [hj] at hf ⊢
    have hf' : f = (f - b.length) + b.length := by omega
    rw [hf', splitAux_noHR b (fun c hc => hb.1 c hc) (f - b.length) []]
    simp
  | cons b₂ bs' ih =>
    intro b hb hbs f hf
    have hb₂ : goodBlock b₂ := hbs b₂ (List.mem_cons_self _ _)
    have hb2'good : goodBlock (dropNl b₂) := by
      constructor
      · intro c hc
        exact hb₂.1 c (dropNl_subset b₂ c hc)
      · rw [pyStrip_dropNl]
        exact hb₂.2
    have hb2'ne : dropNl b₂ ≠ [] := dropNl_ne_nil b₂ hb₂.2
    have hjoin : joinD k (b :: b₂ :: bs')
        = rstripNl b ++ (List.replicate (trailNl b + 1) '\n'
            ++ (List.replicate k '─' ++ (List.replicate (leadNl b₂ + 1) '\n'
              ++ (dropNl b₂ ++ joinTail k bs')))) := by
      rw [joinD_cons_cons, joinD_eq_joinTail]
      conv_lhs => rw [rstripNl_decomp b, dropNl_decomp b₂]
      simp only [delimSep, List.replicate_succ, List.replicate_succ']
      simp [List.append_assoc, replicate_append_cons]
    have hlen := congrArg List.length hjoin
    simp only [List.length_append, List.length_replicate] at hlen
    have htailhead : (dropNl b₂ ++ joinTail k bs').head? ≠ some '\n' := by
      rcases hx : dropNl b₂ with _ | ⟨d, r⟩
      · exact absurd hx hb2'ne
      · have h2 := dropNl_head b₂
        rw [hx] at h2
        intro hcon
        apply h2
        simpa using hcon
    have hf1 : f = ((f - (rstripNl b).length - 1) + 1) + (rstripNl b).length := by
      omega
    rw [hjoin, hf1]
    rw [splitAux_core (rstripNl b) (fun c hc => hb.1 c (rstripNl_subset b c hc))
      (rstripNl_getLast b) ((f - (rstripNl b).length - 1) + 1) [] _]
    rw [List.append_nil]
    rw [splitAux_delim (f - (rstripNl b).length - 1) (rstripNl b).reverse
      (trailNl b) k (leadNl b₂) _ hk htailhead]
    rw [List.reverse_reverse]
    rw [← joinD_eq_joinTail]
    have hf2 : (joinD k (dropNl b₂ :: bs')).length
        ≤ f - (rstripNl b).length - 1 := by
      have hlen2 : (joinD k (dropNl b₂ :: bs')).length
          = (dropNl b₂).length + (joinTail k bs').length := by
        rw [joinD_eq_joinTail, List.length_append]
      omega
    rw [List.map_cons,
      ih (dropNl b₂) hb2'good (fun x hx => hbs x (List.mem_cons_of_mem _ hx))
        _ hf2]
    simp [pyStrip_rstripNl, pyStrip_dropNl]

/-- C5 (amended): joining N blocks with a delimiter line of at least ten
delimiter characters between newlines round-trips through the segmenter —
exactly N blocks come back, equal to the originals after trimming —
provided each block strips nonempty AND contains no delimiter character
'─'.  (As stated the claim is refuted: a non-empty block containing its
own internal delimiter line is split further, so the round trip fails
without the extra hypothesis.) -/
theorem claim_C5 (k : Nat) (blocks : List (List Char)) (hk : 10 ≤ k)
    (hb : ∀ b ∈ blocks, goodBlock b) :
    segmentBlocks (joinD k blocks) = blocks.map pyStrip
    ∧ (segmentBlocks (joinD k blocks)).length = blocks.length := by
  have key : segmentBlocks (joinD k blocks) = blocks.map pyStrip := by
    rcases blocks with _ | ⟨b, bs⟩
    · rfl
    · unfold segmentBlocks pySplitHR
      rw [splitAux_join k hk bs b (hb b (List.mem_cons_self _ _))
        (fun x hx => hb x (List.mem_cons_of_mem _ hx)) _ (Nat.le_refl _)]
      rw [List.filter_eq_self]
      intro a ha
      obtain ⟨b', hb', rfl⟩ := List.mem_map.mp ha
      have := (hb b' hb').2
      rcases hx : pyStrip b' with _ | _
      · exact absurd hx this
      · simp [hx]
  refine ⟨key, ?_⟩
  rw [key, List.length_map]

/-- C5 counterexample: two non-empty blocks, the first containing an
internal delimiter line, joined with a valid delimiter, segment into three
blocks that do not equal the two originals after trimming — refuting the
claim for arbitrary non-empty blocks. -/
theorem claim_C5_cex :
    segmentBlocks (joinD 10 [s2l "a\n──────────\nb", s2l "c"])
        ≠ [pyStrip (s2l "a\n──────────\nb"), pyStrip (s2l "c")]
    ∧ (segmentBlocks (joinD 10 [s2l "a\n──────────\nb", s2l "c"])).length = 3
    ∧ pyStrip (s2l "a\n──────────\nb") ≠ [] ∧ pyStrip (s2l "c") ≠ [] := by
  refine ⟨by decide, by decide, by decide, by decide⟩

/-- C5 witness: the amended round trip on two concrete delimiter-free
blocks. -/
theorem claim_C5_witness :
    (10 ≤ 10 ∧ ∀ b ∈ [s2l " Pregunta uno ", s2l "Pregunta dos"], goodBlock b)
    ∧ (segmentBlocks (joinD 10 [s2l " Pregunta uno ", s2l "Pregunta dos"])
          = [s2l " Pregunta uno ", s2l "Pregunta dos"].map pyStrip
        ∧ (segmentBlocks (joinD 10 [s2l " Pregunta uno ", s2l "Pregunta dos"])).length
          = 2) :=
  ⟨⟨by decide, by decide⟩,
    claim_C5 10 [s2l " Pregunta uno ", s2l "Pregunta dos"] (by decide) (by decide)⟩
